import Mathlib

/-!
Shallow embedding of the Scaled ATR DCA engine (src/scaledATRDCA.js) and the
ATR service (src/atrService.js).  JavaScript numbers are modelled as exact
rationals (ℚ); `Date.now()` readings, exchange submit/cancel responses and the
ATR fetch result are passed in as explicit parameters, since they are external
inputs of the engine.  Persistence writes are modelled as snapshot fields of
the engine state.  JavaScript truthiness on numbers is `x ≠ 0`, on nullable
fields `Option.isSome` plus nonzero, modelled explicitly where the source
relies on it.
-/

inductive Side where
  | long
  | short
deriving DecidableEq, Repr

inductive LevelStatus where
  | pending
  | active
  | filled
  | cancelled
  | cancelFailed
  | failed
deriving DecidableEq, Repr

inductive PosStatus where
  | active
  | completed
deriving DecidableEq, Repr

/-- One rung of the DCA ladder, mirroring the object literal built in
`generateDCALevels` (src/scaledATRDCA.js:373-386). -/
structure Level where
  level : Nat
  orderPrice : ℚ
  orderSize : ℚ
  priceDeviation : ℚ
  volumeMultiplier : ℚ
  deviationPercentage : ℚ
  status : LevelStatus
  orderId : Option Nat
  timestamp : Option Nat
  fillPrice : Option ℚ
  fillTime : Option Nat
  filledQty : Option ℚ
deriving DecidableEq, Repr

/-- Position state as created in `initializeDCAPosition`
(src/scaledATRDCA.js:269-283); `completionTime` is the field added later by
`completeDCAPosition`. -/
structure PositionState where
  positionId : Nat
  symbol : String
  side : Side
  basePrice : ℚ
  baseSize : ℚ
  atr : ℚ
  levels : List Level
  executedLevels : List Level
  activeOrders : List Nat
  startTime : Nat
  totalAllocated : ℚ
  averageEntryPrice : ℚ
  status : PosStatus
  completionTime : Option Nat
deriving DecidableEq, Repr

/-- Entry of the engine-wide `activeOrders` map (src/scaledATRDCA.js:628-633). -/
structure OrderInfo where
  positionId : Nat
  level : Nat
  placedTime : Nat
deriving DecidableEq, Repr

/-- The statistics counters of `this.stats` that the engine mutates
(timing metrics are real-time measurements and are not modelled). -/
structure Stats where
  totalPositions : Nat
  totalOrders : Nat
  filledOrders : Nat
  failedOrders : Nat
  cancelledOrders : Nat
deriving DecidableEq, Repr

/-- The configuration fields read by the embedded operations
(`initializeConfig` defaults and further fields such as `expiryMinutes` are
never read by the embedded code paths). `atrLength` and `dcaNumOrders` are
integer counts. -/
structure Config where
  atrTimeframe : String
  atrLength : Nat
  atrDeviation : ℚ
  dcaNumOrders : Nat
  volumeScale : ℚ
  stepScale : ℚ
  maxTotalPercent : ℚ
  triggerOnBaseFill : Bool
deriving DecidableEq, Repr

/-- Exchange instrument constraints (`getOrderConstraints` result). -/
structure Constraints where
  minOrderSize : ℚ
  qtyStep : ℚ
  tickSize : ℚ
deriving DecidableEq, Repr

/-- Final result of one `submitOrder` call (after the 3-attempt
`retryWithBackoff` wrapper): success, or an error with its message; an error
carries the outcome of the submission the engine would perform next if it
retries after a rate-limit cool-down. -/
inductive SubmitOutcome where
  | ok
  | err (msg : String) (next : SubmitOutcome)
deriving DecidableEq, Repr

/-- Final result of one `cancelOrder` exchange call. -/
inductive CancelOutcome where
  | ok
  | err (msg : String)
deriving DecidableEq, Repr

inductive DCAErr where
  | duplicatePosition
  | atrFailed
deriving DecidableEq, Repr

/-- JavaScript `Math.round` on exact rationals: round half up. -/
def jsRound (x : ℚ) : ℤ := ⌊x + 1/2⌋

/-- `validateConfig` (src/scaledATRDCA.js:109-136), returning the error list. -/
def validateConfig (cfg : Config) : List String :=
  (if cfg.atrLength < 1 ∨ cfg.atrLength > 100 then
    ["ATR length must be between 1 and 100"] else []) ++
  (if cfg.dcaNumOrders < 1 ∨ cfg.dcaNumOrders > 20 then
    ["DCA number of orders must be between 1 and 20"] else []) ++
  (if cfg.volumeScale < 1 ∨ cfg.volumeScale > 5 then
    ["Volume scale must be between 1.0 and 5.0"] else []) ++
  (if cfg.stepScale < 1 ∨ cfg.stepScale > 3 then
    ["Step scale must be between 1.0 and 3.0"] else []) ++
  (if cfg.maxTotalPercent < 1 ∨ cfg.maxTotalPercent > 100 then
    ["Max total percent must be between 1 and 100"] else [])

/-- `mapTimeframe` (src/atrService.js:155-169): unknown timeframes fall back
to interval `"60"`. -/
def mapTimeframe (timeframe : String) : String :=
  if timeframe = "1m" then "1"
  else if timeframe = "5m" then "5"
  else if timeframe = "15m" then "15"
  else if timeframe = "30m" then "30"
  else if timeframe = "1h" then "60"
  else if timeframe = "4h" then "240"
  else if timeframe = "1d" then "D"
  else if timeframe = "1w" then "W"
  else "60"

/-- `calculateOrderPrice` (src/scaledATRDCA.js:403-409). -/
def calculateOrderPrice (basePrice deviation : ℚ) : Side → ℚ
  | .long => basePrice - deviation
  | .short => basePrice + deviation

/-- `calculateOrderSize` (src/scaledATRDCA.js:415-418). -/
def calculateOrderSize (baseSize volumeMultiplier : ℚ) : ℚ :=
  baseSize * volumeMultiplier

/-- Loop body of `generateDCALevels` (src/scaledATRDCA.js:368-395):
`n` remaining iterations, `i` the current ordinal, `dev` the current
deviation multiplier, `mult` the current volume multiplier. -/
def generateDCALevelsAux (cfg : Config) (side : Side) (basePrice baseSize atr : ℚ) :
    Nat → Nat → ℚ → ℚ → List Level
  | 0, _, _, _ => []
  | Nat.succ n, i, dev, mult =>
    let pd := dev * atr
    { level := i
      orderPrice := calculateOrderPrice basePrice pd side
      orderSize := calculateOrderSize baseSize mult
      priceDeviation := pd
      volumeMultiplier := mult
      deviationPercentage := pd / basePrice * 100
      status := .pending
      orderId := none
      timestamp := none
      fillPrice := none
      fillTime := none
      filledQty := none } ::
      generateDCALevelsAux cfg side basePrice baseSize atr n (i + 1)
        (dev * cfg.stepScale) (mult * cfg.volumeScale)

/-- `generateDCALevels` (src/scaledATRDCA.js:361-398): the deviation
multiplier starts at `atrDeviation`, the volume multiplier starts at `1.0`. -/
def generateDCALevels (cfg : Config) (side : Side) (basePrice baseSize atr : ℚ) :
    List Level :=
  generateDCALevelsAux cfg side basePrice baseSize atr cfg.dcaNumOrders 1 cfg.atrDeviation 1

/-- `processOrderQuantity` (src/scaledATRDCA.js:521-540): raise to the
minimum, round up to a step multiple, then round to 8 decimal places. -/
def processOrderQuantity (orderSize : ℚ) (cs : Constraints) : ℚ :=
  let p1 := if orderSize < cs.minOrderSize then cs.minOrderSize else orderSize
  let p2 := if 0 < cs.qtyStep then ((⌈p1 / cs.qtyStep⌉ : ℤ) : ℚ) * cs.qtyStep else p1
  ((jsRound (p2 * 100000000) : ℤ) : ℚ) / 100000000

/-- JavaScript numeric truthiness of an optional number: `null`, `NaN` (not
representable in ℚ) and `0` are falsy. -/
def truthyOpt (x : Option ℚ) : Bool :=
  match x with
  | none => false
  | some v => !(v == 0)

/-- `calculateAverageEntryPrice` (src/scaledATRDCA.js:749-765): with no
executed level the base price is returned; otherwise a size-weighted mean over
the base entry and every executed level whose `fillPrice` and `filledQty` are
truthy. -/
def calculateAverageEntryPrice (p : PositionState) : ℚ :=
  if p.executedLevels = [] then p.basePrice
  else
    let totals := p.executedLevels.foldl
      (fun acc l =>
        if truthyOpt l.fillPrice && truthyOpt l.filledQty then
          (acc.1 + l.fillPrice.getD 0 * l.filledQty.getD 0, acc.2 + l.filledQty.getD 0)
        else acc)
      (p.basePrice * p.baseSize, p.baseSize)
    totals.1 / totals.2

/-- `error.message.includes('rate limit')` (src/scaledATRDCA.js:97). -/
def isRateLimitMsg (msg : String) : Bool :=
  decide (("rate limit".toList) <:+: msg.toList)

/-- `handleRateLimit` (src/scaledATRDCA.js:96-104) given the error message and
the random draw `r ∈ [0,1)`: returns whether the message indicates a rate
limit, and the cool-down delay in milliseconds. -/
def handleRateLimit (msg : String) (r : ℚ) : Bool × ℚ :=
  if isRateLimitMsg msg then (true, 5000 + r * 5000)
  else (false, 0)

/-- `retryWithBackoff` (src/scaledATRDCA.js:67-91) over the list of
per-attempt results (the caller passes one entry per allowed attempt, so the
list length is `maxRetries`): the first success is returned, otherwise the
last error. -/
def retryWithBackoff {α : Type} : List (Except String α) → Except String α
  | [] => .error ""
  | [r] => r
  | r :: rs =>
    match r with
    | .ok v => .ok v
    | .error _ => retryWithBackoff rs

/-- Backoff delay before retrying `attempt` (1-based) in `retryWithBackoff`
(src/scaledATRDCA.js:83), with jitter `j ∈ [0,1000)`. -/
def backoffDelay (baseDelay : ℚ) (attempt : Nat) (j : ℚ) : ℚ :=
  baseDelay * 2 ^ (attempt - 1) + j

structure Kline where
  high : ℚ
  low : ℚ
  close : ℚ
deriving DecidableEq, Repr

inductive ATRError where
  | insufficientData
  | invalidResult
deriving DecidableEq, Repr

/-- True range of candle `c` against the previous candle `prev`
(src/atrService.js:184-195). -/
def trOf (prev c : Kline) : ℚ :=
  max (c.high - c.low) (max |c.high - prev.close| |c.low - prev.close|)

/-- The TR list computed by the loop in `computeATR`
(src/atrService.js:184-196): one value per adjacent pair of candles. -/
def trueRanges : List Kline → List ℚ
  | [] => []
  | [_] => []
  | prev :: c :: rest => trOf prev c :: trueRanges (c :: rest)

/-- `computeATR` (src/atrService.js:175-216): Wilder smoothing seeded with the
first TR value. -/
def computeATR (klines : List Kline) (period : Nat) : Except ATRError ℚ :=
  if klines.length < period + 1 then .error .insufficientData
  else
    let trValues := trueRanges klines
    if trValues.length < period then .error .insufficientData
    else .ok (trValues.tail.foldl
      (fun atr tr => (atr * ((period : ℚ) - 1) + tr) / (period : ℚ))
      (trValues.headD 0))

/-- The try-body of `calculateATR` (src/atrService.js:41-62) applied to
already-fetched klines (the network fetch and the 5-minute cache are external
I/O): length check, `computeATR`, then the `atr && atr > 0` validity check,
which throws an invalid-result error when it fails. -/
def calculateATRBody (klines : List Kline) (len : Nat) : Except ATRError ℚ :=
  if klines.length < len + 1 then .error .insufficientData
  else
    match computeATR klines len with
    | .error e => .error e
    | .ok atr => if !(atr == 0) && decide (0 < atr) then .ok atr else .error .invalidResult

/-! ## Engine state and map helpers

`this.activePositions` and `this.activeOrders` are JavaScript `Map`s, modelled
as association lists in insertion order with distinct keys. -/

structure EngineState where
  config : Config
  activePositions : List (Nat × PositionState)
  activeOrders : List (Nat × OrderInfo)
  nextOrderId : Nat
  stats : Stats
  persistedPositions : List (Nat × PositionState)
  persistedStats : Stats
deriving DecidableEq, Repr

def lookupPos (ps : List (Nat × PositionState)) (pid : Nat) : Option PositionState :=
  (ps.find? (fun e => e.1 == pid)).map (fun e => e.2)

/-- Mutation through a looked-up `Map` value: rewrite the entry in place. -/
def mapPos (ps : List (Nat × PositionState)) (pid : Nat)
    (f : PositionState → PositionState) : List (Nat × PositionState) :=
  ps.map (fun e => if e.1 = pid then (e.1, f e.2) else e)

/-- `Map.set`: overwrite in place, or append a new entry. -/
def setPos (ps : List (Nat × PositionState)) (pid : Nat) (p : PositionState) :
    List (Nat × PositionState) :=
  if ps.any (fun e => e.1 == pid) then mapPos ps pid (fun _ => p) else ps ++ [(pid, p)]

def lookupOrd (os : List (Nat × OrderInfo)) (oid : Nat) : Option OrderInfo :=
  (os.find? (fun e => e.1 == oid)).map (fun e => e.2)

/-- `Map.delete`. -/
def eraseOrd (os : List (Nat × OrderInfo)) (oid : Nat) : List (Nat × OrderInfo) :=
  os.filter (fun e => ¬ e.1 = oid)

/-- `Map.set` on the engine order map. -/
def setOrd (os : List (Nat × OrderInfo)) (oid : Nat) (v : OrderInfo) :
    List (Nat × OrderInfo) :=
  if os.any (fun e => e.1 == oid) then
    os.map (fun e => if e.1 = oid then (oid, v) else e)
  else os ++ [(oid, v)]

/-- `savePersistedData` (src/scaledATRDCA.js:181-192): snapshot positions and
stats to durable storage. -/
def savePersistedData (s : EngineState) : EngineState :=
  { s with persistedPositions := s.activePositions, persistedStats := s.stats }

/-- The positions-only persistence write in `cancelDCAOrder`
(src/scaledATRDCA.js:821). -/
def savePositionsOnly (s : EngineState) : EngineState :=
  { s with persistedPositions := s.activePositions }

/-- Update the first level matching `P` (a JavaScript `Array.find` result is
mutated in place). -/
def updateFirst (P : Level → Bool) (f : Level → Level) : List Level → List Level
  | [] => []
  | l :: ls => if P l then f l :: ls else l :: updateFirst P f ls


/-! ## Per-position update functions

Each corresponds to one mutation site in src/scaledATRDCA.js; the engine
operations below apply them through `mapPos`.  The level mutators are named so
that proofs can refer to them. -/

def failedMut : Level → Level := fun l => { l with status := .failed }

def sizedMut (cs : Constraints) : Level → Level :=
  fun l => { l with orderSize := processOrderQuantity l.orderSize cs }

def failedSizedMut (cs : Constraints) : Level → Level :=
  fun l => { l with orderSize := processOrderQuantity l.orderSize cs, status := .failed }

def activeMut (cs : Constraints) (oid now : Nat) : Level → Level :=
  fun l => { l with orderSize := processOrderQuantity l.orderSize cs, status := .active,
                    orderId := some oid, timestamp := some now }

def fillMut (fillPrice filledQty : ℚ) (now : Nat) : Level → Level :=
  fun l => { l with status := LevelStatus.filled, fillPrice := some fillPrice,
                    filledQty := some filledQty, fillTime := some now }

def cancelMut : Level → Level := fun l => { l with status := .cancelled }

def cancelFailedMut : Level → Level := fun l => { l with status := .cancelFailed }

def cancelDCAMut (now : Nat) : Level → Level :=
  fun l => { l with status := .cancelled, timestamp := some now }

/-- Catch block of `placeDCAOrder` marking the level failed
(src/scaledATRDCA.js:655). -/
def markLevelFailed (lv : Nat) (p : PositionState) : PositionState :=
  let ls := updateFirst (fun l => l.level == lv) failedMut p.levels
  { p with levels := ls }

/-- `level.orderSize = processedOrderSize` (src/scaledATRDCA.js:570). -/
def processLevelSize (lv : Nat) (cs : Constraints) (p : PositionState) : PositionState :=
  let ls := updateFirst (fun l => l.level == lv) (sizedMut cs) p.levels
  { p with levels := ls }

/-- Quantity processed, then the level marked failed (non-rate-limit
submission error path of `placeDCAOrder`). -/
def markLevelFailedSized (lv : Nat) (cs : Constraints) (p : PositionState) : PositionState :=
  let ls := updateFirst (fun l => l.level == lv) (failedSizedMut cs) p.levels
  { p with levels := ls }

/-- Success path of `placeDCAOrder` (src/scaledATRDCA.js:620-625): quantity
processed, level activated with the fresh order id, id pushed onto the
position's active list. -/
def activateLevel (lv : Nat) (cs : Constraints) (oid now : Nat) (p : PositionState) :
    PositionState :=
  let ls := updateFirst (fun l => l.level == lv) (activeMut cs oid now) p.levels
  { p with levels := ls, activeOrders := p.activeOrders ++ [oid] }

/-- Fill bookkeeping of `handleOrderFill` (src/scaledATRDCA.js:690-702):
mark the level filled, append the mutated level object to `executedLevels`,
drop the id from the active list, grow the allocation and recompute the
average entry price. -/
def applyFill (lvOrd oid : Nat) (fillPrice filledQty : ℚ) (now : Nat)
    (p : PositionState) : PositionState :=
  let ls := updateFirst (fun l => l.level == lvOrd) (fillMut fillPrice filledQty now) p.levels
  let ex := p.executedLevels ++
    ((p.levels.find? (fun l => l.level == lvOrd)).map (fillMut fillPrice filledQty now)).toList
  let ao := p.activeOrders.filter (fun id => ¬ id = oid)
  let p1 := { p with levels := ls, executedLevels := ex, activeOrders := ao,
                     totalAllocated := p.totalAllocated + filledQty }
  { p1 with averageEntryPrice := calculateAverageEntryPrice p1 }

/-- Success path of `cancelOrder` inside one position
(src/scaledATRDCA.js:862-868). -/
def applyCancel (oid : Nat) (p : PositionState) : PositionState :=
  if p.levels.any (fun l => l.orderId == some oid) then
    let ls := updateFirst (fun l => l.orderId == some oid) cancelMut p.levels
    { p with levels := ls, activeOrders := p.activeOrders.filter (fun id => ¬ id = oid) }
  else p

/-- Failure path of `cancelOrder` inside one position
(src/scaledATRDCA.js:888-893): the first level carrying the id is marked
`cancel_failed`, but only when it is still active. -/
def applyCancelFailed (oid : Nat) (p : PositionState) : PositionState :=
  match p.levels.find? (fun l => l.orderId == some oid) with
  | none => p
  | some l0 =>
    if l0.status == LevelStatus.active then
      let ls := updateFirst (fun l => l.orderId == some oid) cancelFailedMut p.levels
      { p with levels := ls }
    else p

/-- Cleanup step of `cancelDCAOrder` (src/scaledATRDCA.js:806-818). -/
def applyCancelDCA (oid now : Nat) (p : PositionState) : PositionState :=
  let ls := updateFirst (fun l => l.orderId == some oid) (cancelDCAMut now) p.levels
  { p with activeOrders := p.activeOrders.erase oid, levels := ls }

/-! ## Engine operations -/

/-- `completeDCAPosition` (src/scaledATRDCA.js:900-923). -/
def completeDCAPosition (s : EngineState) (pid : Nat) (now : Nat) : EngineState :=
  match lookupPos s.activePositions pid with
  | none => s
  | some _ =>
    let ps := mapPos s.activePositions pid
      (fun p => { p with status := .completed, completionTime := some now })
    savePersistedData { s with activePositions := ps }

/-- `placeDCAOrder` (src/scaledATRDCA.js:551-665) for the level with ordinal
`lv`, with the instrument constraints `cs` and the submission outcome as
external inputs.  A missing `tickSize` (truthiness: `= 0`) throws before the
quantity is processed and the catch block marks the level failed.  Otherwise
the level's `orderSize` is overwritten with the processed quantity; on
success the level becomes active with a fresh order id, on a rate-limited
error the same call is re-entered with the next outcome, and on any other
error the level is marked failed. -/
def placeDCAOrder (s : EngineState) (pid : Nat) (lv : Nat) (cs : Constraints)
    (now : Nat) : SubmitOutcome → EngineState
  | .ok =>
    match lookupPos s.activePositions pid with
    | none => s
    | some _ =>
      if cs.tickSize = 0 then
        let st := { s.stats with failedOrders := s.stats.failedOrders + 1 }
        savePersistedData { s with
          activePositions := mapPos s.activePositions pid (markLevelFailed lv)
          stats := st }
      else
        let oid := s.nextOrderId
        let st := { s.stats with totalOrders := s.stats.totalOrders + 1 }
        savePersistedData { s with
          activePositions := mapPos s.activePositions pid (activateLevel lv cs oid now)
          activeOrders := setOrd s.activeOrders oid
            { positionId := pid, level := lv, placedTime := now }
          nextOrderId := oid + 1
          stats := st }
  | .err msg next =>
    match lookupPos s.activePositions pid with
    | none => s
    | some _ =>
      if cs.tickSize = 0 then
        let st := { s.stats with failedOrders := s.stats.failedOrders + 1 }
        savePersistedData { s with
          activePositions := mapPos s.activePositions pid (markLevelFailed lv)
          stats := st }
      else
        if isRateLimitMsg msg then
          let s1 := { s with
            activePositions := mapPos s.activePositions pid (processLevelSize lv cs) }
          placeDCAOrder s1 pid lv cs now next
        else
          let st := { s.stats with failedOrders := s.stats.failedOrders + 1 }
          savePersistedData { s with
            activePositions := mapPos s.activePositions pid (markLevelFailedSized lv cs)
            stats := st }

/-- `placeNextDCAOrder` (src/scaledATRDCA.js:423-458). -/
def placeNextDCAOrder (s : EngineState) (pid : Nat) (cs : Constraints)
    (out : SubmitOutcome) (now : Nat) : EngineState :=
  match lookupPos s.activePositions pid with
  | none => s
  | some p =>
    if s.config.dcaNumOrders ≤ p.executedLevels.length then
      completeDCAPosition s pid now
    else if 1 ≤ p.activeOrders.length then s
    else
      match p.levels.find? (fun l => l.status == LevelStatus.pending) with
      | some nextLevel => placeDCAOrder s pid nextLevel.level cs now out
      | none => s

/-- `handleOrderFill` (src/scaledATRDCA.js:670-728): an unknown order id, an
unknown position or a missing level returns without touching anything; a known
order marks the level filled, appends it to `executedLevels`, updates the
allocation and the average entry price, drops the order from both active-order
collections and advances the ladder. -/
def handleOrderFill (s : EngineState) (oid : Nat) (fillPrice filledQty : ℚ)
    (cs : Constraints) (out : SubmitOutcome) (now : Nat) : EngineState :=
  match lookupOrd s.activeOrders oid with
  | none => s
  | some info =>
    match lookupPos s.activePositions info.positionId with
    | none => s
    | some p =>
      match p.levels.find? (fun l => l.level == info.level) with
      | none => s
      | some _ =>
        let st := { s.stats with filledOrders := s.stats.filledOrders + 1 }
        let s1 := { s with
          activePositions := mapPos s.activePositions info.positionId
            (applyFill info.level oid fillPrice filledQty now)
          activeOrders := eraseOrd s.activeOrders oid
          stats := st }
        placeNextDCAOrder (savePersistedData s1) info.positionId cs out now

/-- `cancelOrder` (src/scaledATRDCA.js:836-895).  On success the order id is
dropped from the engine map and every position holding a level with that order
id cancels the level and removes the id from its active list.  On failure
(including the rate-limit path, whose symbol-less retry throws immediately)
the first level carrying the id is marked `cancel_failed` if still active. -/
def cancelOrder (s : EngineState) (oid : Nat) : CancelOutcome → EngineState
  | .ok =>
    let st := { s.stats with cancelledOrders := s.stats.cancelledOrders + 1 }
    savePersistedData { s with
      activeOrders := eraseOrd s.activeOrders oid
      stats := st
      activePositions := s.activePositions.map (fun e => (e.1, applyCancel oid e.2)) }
  | .err _ =>
    { s with activePositions :=
        s.activePositions.map (fun e => (e.1, applyCancelFailed oid e.2)) }

/-- `cancelDCAOrder` (src/scaledATRDCA.js:791-831): run `cancelOrder` (which
never throws), then unconditionally remove the id from the position's active
list, mark the level cancelled with a fresh timestamp, and persist the
positions. -/
def cancelDCAOrder (s : EngineState) (pid oid : Nat) (c : CancelOutcome)
    (now : Nat) : EngineState :=
  let s1 := cancelOrder s oid c
  match lookupPos s1.activePositions pid with
  | none => s1
  | some _ =>
    savePositionsOnly { s1 with
      activePositions := mapPos s1.activePositions pid (applyCancelDCA oid now) }

/-- `initializeDCAPosition` (src/scaledATRDCA.js:230-304).  The duplicate
check runs before anything is mutated; `atrRes` is the final result of the
retried external ATR calculation (`none` = all retries failed, nothing
mutated).  On success the position is stored, the counter incremented, state
persisted, and (when `triggerOnBaseFill` is set) the first level placed. -/
def newPositionState (cfg : Config) (pid : Nat) (symbol : String) (side : Side)
    (basePrice baseSize atr : ℚ) (now : Nat) : PositionState :=
  { positionId := pid
    symbol := symbol
    side := side
    basePrice := basePrice
    baseSize := baseSize
    atr := atr
    levels := generateDCALevels cfg side basePrice baseSize atr
    executedLevels := []
    activeOrders := []
    startTime := now
    totalAllocated := baseSize
    averageEntryPrice := basePrice
    status := .active
    completionTime := none }

def initializeDCAPosition (s : EngineState) (pid : Nat) (symbol : String)
    (side : Side) (basePrice baseSize : ℚ) (atrRes : Option ℚ) (cs : Constraints)
    (out : SubmitOutcome) (now : Nat) : EngineState × Except DCAErr Unit :=
  if s.activePositions.any (fun e =>
      e.2.symbol == symbol && e.2.side == side && e.2.status == PosStatus.active) then
    (s, .error .duplicatePosition)
  else
    match atrRes with
    | none => (s, .error .atrFailed)
    | some atr =>
      let p := newPositionState s.config pid symbol side basePrice baseSize atr now
      let st := { s.stats with totalPositions := s.stats.totalPositions + 1 }
      let s1 := savePersistedData { s with
        activePositions := setPos s.activePositions pid p
        stats := st }
      let s2 := if s.config.triggerOnBaseFill then placeNextDCAOrder s1 pid cs out now
                else s1
      (s2, .ok ())

/-! ## Operation sequences -/

/-- One externally triggered engine operation, carrying the external inputs
(exchange responses, ATR result, wall-clock reading) it consumes. -/
inductive Op where
  | opInit (pid : Nat) (symbol : String) (side : Side) (basePrice baseSize : ℚ)
      (atrRes : Option ℚ) (cs : Constraints) (out : SubmitOutcome) (now : Nat)
  | opFill (oid : Nat) (fillPrice filledQty : ℚ) (cs : Constraints)
      (out : SubmitOutcome) (now : Nat)
  | opPlaceNext (pid : Nat) (cs : Constraints) (out : SubmitOutcome) (now : Nat)
  | opCancel (oid : Nat) (c : CancelOutcome)
  | opCancelDCA (pid oid : Nat) (c : CancelOutcome) (now : Nat)

def step (s : EngineState) : Op → EngineState
  | .opInit pid symbol side bp bs atrRes cs out now =>
    (initializeDCAPosition s pid symbol side bp bs atrRes cs out now).1
  | .opFill oid fp fq cs out now => handleOrderFill s oid fp fq cs out now
  | .opPlaceNext pid cs out now => placeNextDCAOrder s pid cs out now
  | .opCancel oid c => cancelOrder s oid c
  | .opCancelDCA pid oid c now => cancelDCAOrder s pid oid c now

def initialStats : Stats :=
  { totalPositions := 0, totalOrders := 0, filledOrders := 0
    failedOrders := 0, cancelledOrders := 0 }

/-- Engine state right after construction on a fresh installation (no
persisted data to reload). -/
def initialEngine (cfg : Config) : EngineState :=
  { config := cfg
    activePositions := []
    activeOrders := []
    nextOrderId := 0
    stats := initialStats
    persistedPositions := []
    persistedStats := initialStats }

/-- The engine state after a sequence of externally triggered operations. -/
def run (cfg : Config) (ops : List Op) : EngineState :=
  ops.foldl step (initialEngine cfg)

/-- Number of levels with status `active` in a level list. -/
def countActive (ls : List Level) : Nat :=
  ls.countP (fun l => l.status == LevelStatus.active)

/-! ## Specification-side definitions

These are written from the wording of the specification (not from the code)
and are compared with the embedded source functions in the refinement
theorems below. -/

/-- Spec wording: TRᵢ = max(highᵢ−lowᵢ, |highᵢ−closeᵢ₋₁|, |lowᵢ−closeᵢ₋₁|)
for candles indexed from 0, i = 1..N. -/
def specTrueRange (klines : List Kline) (i : Nat) : ℚ :=
  let c := klines.getD i { high := 0, low := 0, close := 0 }
  let pc := klines.getD (i - 1) { high := 0, low := 0, close := 0 }
  max (c.high - c.low) (max |c.high - pc.close| |c.low - pc.close|)

/-- Spec wording: ATR₁ = TR₁ and ATRᵢ = (ATRᵢ₋₁·(period−1) + TRᵢ)/period for
i = 2..N, as a recursion over the index. -/
def specATRseq (period : ℚ) (tr : Nat → ℚ) : Nat → ℚ
  | 0 => tr 1
  | 1 => tr 1
  | Nat.succ (Nat.succ i) =>
    (specATRseq period tr (i + 1) * (period - 1) + tr (i + 2)) / period

/-- The Wilder-smoothed value ATR_N the spec defines for N+1 candles. -/
def specWilderATR (klines : List Kline) (period : Nat) : ℚ :=
  specATRseq (period : ℚ) (specTrueRange klines) (klines.length - 1)

def sumFillValues (ls : List Level) : ℚ :=
  (ls.map (fun l => l.fillPrice.getD 0 * l.filledQty.getD 0)).sum

def sumFillQtys (ls : List Level) : ℚ :=
  (ls.map (fun l => l.filledQty.getD 0)).sum

/-- Spec wording: the size-weighted mean over (basePrice, baseSize) and every
filled level's (fillPrice, filledQty). -/
def specWeightedAverage (p : PositionState) : ℚ :=
  (p.basePrice * p.baseSize + sumFillValues p.executedLevels) /
    (p.baseSize + sumFillQtys p.executedLevels)

/-- The timeframe enum named by the claim. -/
def specTimeframes : List String := ["1m", "5m", "15m", "30m", "1h", "4h", "1d", "1w"]

/-- Spec wording of the recognized-configuration ranges, timeframe included. -/
def specConfigOk (cfg : Config) : Prop :=
  cfg.atrTimeframe ∈ specTimeframes ∧
  1 ≤ cfg.atrLength ∧ cfg.atrLength ≤ 100 ∧
  1 ≤ cfg.dcaNumOrders ∧ cfg.dcaNumOrders ≤ 20 ∧
  1 ≤ cfg.volumeScale ∧ cfg.volumeScale ≤ 5 ∧
  1 ≤ cfg.stepScale ∧ cfg.stepScale ≤ 3 ∧
  1 ≤ cfg.maxTotalPercent ∧ cfg.maxTotalPercent ≤ 100

/-! ## Concrete fixtures used by witnesses and counterexamples -/

def csUnit : Constraints := { minOrderSize := 1, qtyStep := 1, tickSize := 1 }

def cfgOne : Config :=
  { atrTimeframe := "1h", atrLength := 14, atrDeviation := 1, dcaNumOrders := 1,
    volumeScale := 3/2, stepScale := 6/5, maxTotalPercent := 25,
    triggerOnBaseFill := true }

def opsOne : List Op :=
  [Op.opInit 1 "BTCUSDT" Side.long 100 10 (some 2) csUnit SubmitOutcome.ok 0]

def opsFailInit : List Op :=
  [Op.opInit 1 "BTCUSDT" Side.long 100 10 (some 2) csUnit
    (SubmitOutcome.err "boom" SubmitOutcome.ok) 0]

def opsFill : List Op := opsOne ++ [Op.opFill 0 99 15 csUnit SubmitOutcome.ok 1]

def opsZeroFill : List Op := opsOne ++ [Op.opFill 0 0 5 csUnit SubmitOutcome.ok 1]

/-- The position reached by `run cfgOne opsOne`: one active level. -/
def posW : PositionState :=
  { positionId := 1, symbol := "BTCUSDT", side := Side.long, basePrice := 100,
    baseSize := 10, atr := 2,
    levels := [{ level := 1, orderPrice := 98, orderSize := 10, priceDeviation := 2,
                 volumeMultiplier := 1, deviationPercentage := 2,
                 status := LevelStatus.active, orderId := some 0, timestamp := some 0,
                 fillPrice := none, fillTime := none, filledQty := none }],
    executedLevels := [], activeOrders := [0], startTime := 0, totalAllocated := 10,
    averageEntryPrice := 100, status := PosStatus.active, completionTime := none }

/-- The position reached by `run cfgOne opsFailInit`: its only level failed,
so no pending level remains while `executedLevels` is empty. -/
def pFailed : PositionState :=
  { positionId := 1, symbol := "BTCUSDT", side := Side.long, basePrice := 100,
    baseSize := 10, atr := 2,
    levels := [{ level := 1, orderPrice := 98, orderSize := 10, priceDeviation := 2,
                 volumeMultiplier := 1, deviationPercentage := 2,
                 status := LevelStatus.failed, orderId := none, timestamp := none,
                 fillPrice := none, fillTime := none, filledQty := none }],
    executedLevels := [], activeOrders := [], startTime := 0, totalAllocated := 10,
    averageEntryPrice := 100, status := PosStatus.active, completionTime := none }

/-- The position reached by `run cfgOne opsFill`: its level filled at 99 for
quantity 15, ladder complete. -/
def pDone : PositionState :=
  { positionId := 1, symbol := "BTCUSDT", side := Side.long, basePrice := 100,
    baseSize := 10, atr := 2,
    levels := [{ level := 1, orderPrice := 98, orderSize := 10, priceDeviation := 2,
                 volumeMultiplier := 1, deviationPercentage := 2,
                 status := LevelStatus.filled, orderId := some 0, timestamp := some 0,
                 fillPrice := some 99, fillTime := some 1, filledQty := some 15 }],
    executedLevels :=
      [{ level := 1, orderPrice := 98, orderSize := 10, priceDeviation := 2,
         volumeMultiplier := 1, deviationPercentage := 2,
         status := LevelStatus.filled, orderId := some 0, timestamp := some 0,
         fillPrice := some 99, fillTime := some 1, filledQty := some 15 }],
    activeOrders := [], startTime := 0, totalAllocated := 25,
    averageEntryPrice := 497/5, status := PosStatus.completed,
    completionTime := some 1 }

/-- The position reached by `run cfgOne opsZeroFill`: its level was reported
filled with `fillPrice = 0`, which the truthiness check in
`calculateAverageEntryPrice` silently skips. -/
def pZeroFill : PositionState :=
  { positionId := 1, symbol := "BTCUSDT", side := Side.long, basePrice := 100,
    baseSize := 10, atr := 2,
    levels := [{ level := 1, orderPrice := 98, orderSize := 10, priceDeviation := 2,
                 volumeMultiplier := 1, deviationPercentage := 2,
                 status := LevelStatus.filled, orderId := some 0, timestamp := some 0,
                 fillPrice := some 0, fillTime := some 1, filledQty := some 5 }],
    executedLevels :=
      [{ level := 1, orderPrice := 98, orderSize := 10, priceDeviation := 2,
         volumeMultiplier := 1, deviationPercentage := 2,
         status := LevelStatus.filled, orderId := some 0, timestamp := some 0,
         fillPrice := some 0, fillTime := some 1, filledQty := some 5 }],
    activeOrders := [], startTime := 0, totalAllocated := 15,
    averageEntryPrice := 100, status := PosStatus.completed,
    completionTime := some 1 }

/-- The scenario configuration of the level-generator claim. -/
def cfgC6 : Config :=
  { atrTimeframe := "1h", atrLength := 14, atrDeviation := 1/2, dcaNumOrders := 3,
    volumeScale := 3/2, stepScale := 6/5, maxTotalPercent := 25,
    triggerOnBaseFill := true }

/-- All numeric parameters in range, timeframe not in the enum. -/
def cfgBadTimeframe : Config :=
  { atrTimeframe := "2h", atrLength := 14, atrDeviation := 1, dcaNumOrders := 5,
    volumeScale := 3/2, stepScale := 6/5, maxTotalPercent := 25,
    triggerOnBaseFill := true }

/-- Constraints whose step is finer than the 8-decimal rounding grid. -/
def csTiny : Constraints :=
  { minOrderSize := 1/1000000000, qtyStep := 1/1000000000, tickSize := 1/10000 }

/-- Constraints on the 8-decimal grid. -/
def csDime : Constraints := { minOrderSize := 1/10, qtyStep := 1/10, tickSize := 1/10000 }

/-- A three-candle fixture for the volatility computation. -/
def ksW : List Kline :=
  [{ high := 10, low := 5, close := 7 }, { high := 12, low := 6, close := 9 },
   { high := 11, low := 8, close := 10 }]

/-! ## List lemmas -/

theorem listMapCongr {α β : Type} {f g : α → β} :
    ∀ (l : List α), (∀ a ∈ l, f a = g a) → l.map f = l.map g := by
  intro l
  induction l with
  | nil => intro _; rfl
  | cons a t ih =>
    intro h
    simp only [List.map_cons]
    rw [h a (by simp), ih (fun x hx => h x (by simp [hx]))]

theorem updateFirst_decomp (P : Level → Bool) (f : Level → Level) (ls : List Level) :
    (ls.find? P = none ∧ updateFirst P f ls = ls) ∨
    ∃ l₁ l0 l₂, ls = l₁ ++ l0 :: l₂ ∧ (∀ x ∈ l₁, P x = false) ∧ P l0 = true ∧
      ls.find? P = some l0 ∧ updateFirst P f ls = l₁ ++ f l0 :: l₂ := by
  induction ls with
  | nil => exact Or.inl ⟨rfl, rfl⟩
  | cons l t ih =>
    by_cases hP : P l = true
    · refine Or.inr ⟨[], l, t, by simp, by simp, hP, ?_, ?_⟩
      · simp [List.find?_cons_of_pos _ hP]
      · simp [updateFirst, hP]
    · have hP' : P l = false := by simpa using hP
      rcases ih with ⟨h1, h2⟩ | ⟨l₁, l0, l₂, he, hpre, hP0, hfind, hupd⟩
      · refine Or.inl ⟨?_, ?_⟩
        · rw [List.find?_cons_of_neg _ (by simp [hP']), h1]
        · simp [updateFirst, hP', h2]
      · refine Or.inr ⟨l :: l₁, l0, l₂, by simp [he], ?_, hP0, ?_, ?_⟩
        · intro x hx
          rcases List.mem_cons.mp hx with rfl | hx
          · exact hP'
          · exact hpre x hx
        · rw [List.find?_cons_of_neg _ (by simp [hP']), hfind]
        · simp [updateFirst, hP', hupd]

theorem mem_updateFirst {P : Level → Bool} {f : Level → Level} {ls : List Level} {x : Level}
    (hx : x ∈ updateFirst P f ls) :
    x ∈ ls ∨ ∃ l, l ∈ ls ∧ P l = true ∧ x = f l := by
  rcases updateFirst_decomp P f ls with ⟨_, h2⟩ | ⟨l₁, l0, l₂, he, _, hP0, _, hupd⟩
  · rw [h2] at hx; exact Or.inl hx
  · rw [hupd] at hx
    rcases List.mem_append.mp hx with h | h
    · exact Or.inl (he ▸ List.mem_append.mpr (Or.inl h))
    · rcases List.mem_cons.mp h with rfl | h
      · exact Or.inr ⟨l0, he ▸ List.mem_append.mpr (Or.inr (List.mem_cons_self _ _)), hP0, rfl⟩
      · exact Or.inl (he ▸ List.mem_append.mpr (Or.inr (List.mem_cons.mpr (Or.inr h))))

theorem map_level_updateFirst (P : Level → Bool) (f : Level → Level)
    (hf : ∀ l, (f l).level = l.level) :
    ∀ ls : List Level,
      (updateFirst P f ls).map (fun l => l.level) = ls.map (fun l => l.level) := by
  intro ls
  induction ls with
  | nil => rfl
  | cons l t ih =>
    by_cases hP : P l = true
    · simp [updateFirst, hP, hf l]
    · have hP' : P l = false := by simpa using hP
      simp [updateFirst, hP', ih]

theorem filterMap_orderId_updateFirst (P : Level → Bool) (f : Level → Level)
    (hf : ∀ l, (f l).orderId = l.orderId) :
    ∀ ls : List Level,
      (updateFirst P f ls).filterMap (fun l => l.orderId) =
        ls.filterMap (fun l => l.orderId) := by
  intro ls
  induction ls with
  | nil => rfl
  | cons l t ih =>
    by_cases hP : P l = true
    · cases ho : l.orderId with
      | none =>
        simp [updateFirst, hP, List.filterMap_cons_none, ho, hf l]
      | some o =>
        have : (f l).orderId = some o := by rw [hf l, ho]
        simp [updateFirst, hP, List.filterMap_cons_some, ho, this]
    · have hP' : P l = false := by simpa using hP
      cases ho : l.orderId with
      | none => simp [updateFirst, hP', List.filterMap_cons_none, ho, ih]
      | some o => simp [updateFirst, hP', List.filterMap_cons_some, ho, ih]

theorem filterMap_eq_replicate {α β : Type} {g : α → Option β} {b : β} :
    ∀ (l : List α), (∀ x ∈ l, g x = some b) →
      l.filterMap g = List.replicate l.length b := by
  intro l
  induction l with
  | nil => intro _; rfl
  | cons a t ih =>
    intro h
    rw [List.filterMap_cons_some (h a (by simp))]
    simp only [List.length_cons, List.replicate_succ]
    rw [ih (fun x hx => h x (by simp [hx]))]

theorem keyNodup_unique {α : Type} :
    ∀ {ps : List (Nat × α)}, (ps.map Prod.fst).Nodup →
      ∀ {k : Nat} {a b : α}, (k, a) ∈ ps → (k, b) ∈ ps → a = b := by
  intro ps
  induction ps with
  | nil => intro _ k a b ha; cases ha
  | cons e t ih =>
    intro hnd k a b ha hb
    have hnd' := hnd
    rw [List.map_cons, List.nodup_cons] at hnd'
    rcases List.mem_cons.mp ha with ha' | ha' <;> rcases List.mem_cons.mp hb with hb' | hb'
    · rw [← ha'] at hb'
      have := congrArg Prod.snd hb'
      simpa using this.symm
    · exfalso
      apply hnd'.1
      have : e.1 = k := by rw [← ha']
      rw [this]
      exact List.mem_map.mpr ⟨(k, b), hb', rfl⟩
    · exfalso
      apply hnd'.1
      have : e.1 = k := by rw [← hb']
      rw [this]
      exact List.mem_map.mpr ⟨(k, a), ha', rfl⟩
    · exact ih hnd'.2 ha' hb'

theorem lookupPos_mem {ps : List (Nat × PositionState)} {pid : Nat} {p : PositionState}
    (h : lookupPos ps pid = some p) : (pid, p) ∈ ps := by
  unfold lookupPos at h
  cases hf : ps.find? (fun e => e.1 == pid) with
  | none => rw [hf] at h; cases h
  | some e =>
    rw [hf] at h
    simp only [Option.map_some'] at h
    have h1 := List.find?_some hf
    have h2 := List.mem_of_find?_eq_some hf
    have : e.1 = pid := by simpa using h1
    have : e = (pid, p) := by
      cases e; simp_all
    rw [← this]; exact h2

theorem lookupPos_eq_of_mem {ps : List (Nat × PositionState)} {pid : Nat}
    {p q : PositionState} (hnd : (ps.map Prod.fst).Nodup)
    (hlk : lookupPos ps pid = some p) (hmem : (pid, q) ∈ ps) : q = p :=
  keyNodup_unique hnd hmem (lookupPos_mem hlk)

theorem lookupOrd_mem {os : List (Nat × OrderInfo)} {oid : Nat} {info : OrderInfo}
    (h : lookupOrd os oid = some info) : (oid, info) ∈ os := by
  unfold lookupOrd at h
  cases hf : os.find? (fun e => e.1 == oid) with
  | none => rw [hf] at h; cases h
  | some e =>
    rw [hf] at h
    simp only [Option.map_some'] at h
    have h1 := List.find?_some hf
    have h2 := List.mem_of_find?_eq_some hf
    have : e = (oid, info) := by
      cases e; simp_all
    rw [← this]; exact h2

theorem mem_mapPos {ps : List (Nat × PositionState)} {pid : Nat}
    {f : PositionState → PositionState} {e : Nat × PositionState}
    (he : e ∈ mapPos ps pid f) :
    (e ∈ ps ∧ e.1 ≠ pid) ∨ ∃ q, (pid, q) ∈ ps ∧ e = (pid, f q) := by
  unfold mapPos at he
  rcases List.mem_map.mp he with ⟨e', he', hge⟩
  by_cases h : e'.1 = pid
  · right
    refine ⟨e'.2, ?_, ?_⟩
    · have : e' = (pid, e'.2) := by cases e'; simp_all
      rw [← this]; exact he'
    · rw [← hge]; simp [h]
  · left
    constructor
    · have : e = e' := by rw [← hge]; simp [h]
      rw [this]; exact he'
    · have : e = e' := by rw [← hge]; simp [h]
      rw [this]; exact h

theorem map_fst_mapPos {ps : List (Nat × PositionState)} {pid : Nat}
    {f : PositionState → PositionState} :
    (mapPos ps pid f).map Prod.fst = ps.map Prod.fst := by
  unfold mapPos
  rw [List.map_map]
  apply listMapCongr
  intro e _
  by_cases h : e.1 = pid <;> simp [h]

theorem mem_setPos {ps : List (Nat × PositionState)} {pid : Nat} {p : PositionState}
    {e : Nat × PositionState} (he : e ∈ setPos ps pid p) :
    (e ∈ ps ∧ e.1 ≠ pid) ∨ e = (pid, p) := by
  unfold setPos at he
  by_cases h : ps.any (fun e => e.1 == pid) = true
  · rw [if_pos h] at he
    rcases mem_mapPos he with ⟨h1, h2⟩ | ⟨q, _, hq⟩
    · exact Or.inl ⟨h1, h2⟩
    · exact Or.inr hq
  · rw [if_neg h] at he
    rcases List.mem_append.mp he with h1 | h1
    · refine Or.inl ⟨h1, ?_⟩
      intro hk
      apply h
      exact List.any_eq_true.mpr ⟨e, h1, by simp [hk]⟩
    · exact Or.inr (by simpa using h1)

theorem map_fst_setPos_nodup {ps : List (Nat × PositionState)} {pid : Nat}
    {p : PositionState} (hnd : (ps.map Prod.fst).Nodup) :
    ((setPos ps pid p).map Prod.fst).Nodup := by
  unfold setPos
  by_cases h : ps.any (fun e => e.1 == pid) = true
  · rw [if_pos h]; rw [map_fst_mapPos]; exact hnd
  · rw [if_neg h]
    rw [List.map_append]
    simp only [List.map_cons, List.map_nil]
    rw [List.nodup_append]
    refine ⟨hnd, List.nodup_singleton _, ?_⟩
    intro k hk hk2
    have : k = pid := by simpa using hk2
    subst this
    rcases List.mem_map.mp hk with ⟨e, he, hke⟩
    apply h
    exact List.any_eq_true.mpr ⟨e, he, by simp [hke]⟩

theorem setOrd_fresh {os : List (Nat × OrderInfo)} {oid : Nat} {v : OrderInfo}
    (h : ∀ e ∈ os, e.1 ≠ oid) : setOrd os oid v = os ++ [(oid, v)] := by
  unfold setOrd
  rw [if_neg]
  intro hany
  rcases List.any_eq_true.mp hany with ⟨e, he, hk⟩
  exact h e he (by simpa using hk)

theorem mem_eraseOrd {os : List (Nat × OrderInfo)} {oid : Nat} {e : Nat × OrderInfo}
    (he : e ∈ eraseOrd os oid) : e ∈ os ∧ e.1 ≠ oid := by
  unfold eraseOrd at he
  have := List.mem_filter.mp he
  refine ⟨this.1, ?_⟩
  have h2 := this.2
  simpa using h2

theorem eraseOrd_sublist (os : List (Nat × OrderInfo)) (oid : Nat) :
    (eraseOrd os oid).Sublist os := List.filter_sublist os

/-! ## Per-position invariant -/

/-- Structural invariant of a single position: level ordinals are distinct, at
most one order id is active, every active level carries an order id from the
position's active list, and assigned order ids are distinct. -/
structure PosInv (p : PositionState) : Prop where
  ordNodup : (p.levels.map (fun l => l.level)).Nodup
  aoLen : p.activeOrders.length ≤ 1
  activeHasOrder : ∀ l ∈ p.levels, l.status = LevelStatus.active →
      ∃ o, l.orderId = some o ∧ o ∈ p.activeOrders
  oidNodup : (p.levels.filterMap (fun l => l.orderId)).Nodup

theorem countActive_le_one {p : PositionState} (h : PosInv p) :
    countActive p.levels ≤ 1 := by
  unfold countActive
  rw [List.countP_eq_length_filter]
  rcases hao : p.activeOrders with _ | ⟨o, rest⟩
  · have hnil : p.levels.filter (fun l => l.status == LevelStatus.active) = [] := by
      rw [List.filter_eq_nil_iff]
      intro l hl hact
      have hact' : l.status = LevelStatus.active := by simpa using hact
      rcases h.activeHasOrder l hl hact' with ⟨o, _, ho⟩
      rw [hao] at ho
      cases ho
    rw [hnil]
    simp
  · have hrest : rest = [] := by
      have hlen := h.aoLen
      rw [hao] at hlen
      simp only [List.length_cons] at hlen
      exact List.length_eq_zero.mp (by omega)
    subst hrest
    have hall : ∀ l ∈ p.levels.filter (fun l => l.status == LevelStatus.active),
        (fun l => l.orderId) l = some o := by
      intro l hl
      have hm := List.mem_filter.mp hl
      have hact : l.status = LevelStatus.active := by simpa using hm.2
      rcases h.activeHasOrder l hm.1 hact with ⟨o', ho', hmem⟩
      rw [hao] at hmem
      have ho'' : o' = o := by simpa using hmem
      show l.orderId = some o
      rw [ho', ho'']
    have hrep := filterMap_eq_replicate _ hall
    have hsub : (p.levels.filter (fun l => l.status == LevelStatus.active)).Sublist
        p.levels := List.filter_sublist _
    have hnd : ((p.levels.filter
        (fun l => l.status == LevelStatus.active)).filterMap
          (fun l => l.orderId)).Nodup :=
      (hsub.filterMap _).nodup h.oidNodup
    rw [hrep] at hnd
    exact List.nodup_replicate.mp hnd

theorem posInv_congr {p q : PositionState} (hl : q.levels = p.levels)
    (ha : q.activeOrders = p.activeOrders) (h : PosInv p) : PosInv q := by
  constructor
  · rw [hl]; exact h.ordNodup
  · rw [ha]; exact h.aoLen
  · rw [hl, ha]; exact h.activeHasOrder
  · rw [hl]; exact h.oidNodup

/-- A level update that keeps ordinal and order id and never turns a
non-active level active preserves the per-position invariant. -/
theorem posInv_updateFirst_safe {p : PositionState} (h : PosInv p) (P : Level → Bool)
    (f : Level → Level)
    (hlvl : ∀ l, (f l).level = l.level) (hoid : ∀ l, (f l).orderId = l.orderId)
    (hst : ∀ l, (f l).status = LevelStatus.active → l.status = LevelStatus.active) :
    PosInv { p with levels := updateFirst P f p.levels } := by
  constructor
  · show ((updateFirst P f p.levels).map (fun l => l.level)).Nodup
    rw [map_level_updateFirst P f hlvl]
    exact h.ordNodup
  · exact h.aoLen
  · intro l hl hact
    rcases mem_updateFirst hl with hm | ⟨l0, hm, _, rfl⟩
    · exact h.activeHasOrder l hm hact
    · rcases h.activeHasOrder l0 hm (hst l0 hact) with ⟨o, ho, hmem⟩
      exact ⟨o, by rw [hoid l0, ho], hmem⟩
  · show ((updateFirst P f p.levels).filterMap (fun l => l.orderId)).Nodup
    rw [filterMap_orderId_updateFirst P f hoid]
    exact h.oidNodup

theorem posInv_markLevelFailed {p : PositionState} {lv : Nat} (h : PosInv p) :
    PosInv (markLevelFailed lv p) :=
  posInv_updateFirst_safe h _ _ (fun _ => rfl) (fun _ => rfl) (fun _ hl => by cases hl)

theorem posInv_processLevelSize {p : PositionState} {lv : Nat} {cs : Constraints}
    (h : PosInv p) : PosInv (processLevelSize lv cs p) :=
  posInv_updateFirst_safe h _ _ (fun _ => rfl) (fun _ => rfl) (fun _ hl => hl)

theorem posInv_markLevelFailedSized {p : PositionState} {lv : Nat} {cs : Constraints}
    (h : PosInv p) : PosInv (markLevelFailedSized lv cs p) :=
  posInv_updateFirst_safe h _ _ (fun _ => rfl) (fun _ => rfl) (fun _ hl => by cases hl)

theorem posInv_applyCancelFailed {p : PositionState} {oid : Nat} (h : PosInv p) :
    PosInv (applyCancelFailed oid p) := by
  unfold applyCancelFailed
  split
  · exact h
  · split
    · exact posInv_updateFirst_safe h _ _ (fun _ => rfl) (fun _ => rfl)
        (fun _ hl => by cases hl)
    · exact h

theorem posInv_applyCancel {p : PositionState} {oid : Nat} (h : PosInv p) :
    PosInv (applyCancel oid p) := by
  unfold applyCancel
  split
  case isTrue hany =>
    rcases updateFirst_decomp (fun l => l.orderId == some oid) cancelMut p.levels with
      ⟨hnone, _⟩ | ⟨l₁, l0, l₂, he, hpre, hP0, _, hupd⟩
    · exfalso
      rcases List.any_eq_true.mp hany with ⟨l, hl, hP⟩
      exact (List.find?_eq_none.mp hnone l hl) hP
    · constructor
      · show ((updateFirst (fun l => l.orderId == some oid) cancelMut p.levels).map
            (fun l => l.level)).Nodup
        rw [map_level_updateFirst (fun l => l.orderId == some oid) cancelMut
          (fun _ => rfl)]
        exact h.ordNodup
      · exact le_trans (List.length_filter_le _ _) h.aoLen
      · intro l hl hact
        have hl' : l ∈ updateFirst (fun l => l.orderId == some oid) cancelMut p.levels := hl
        rw [hupd] at hl'
        have horig : l ∈ p.levels ∧ l.orderId ≠ some oid := by
          rcases List.mem_append.mp hl' with h1 | h1
          · refine ⟨he ▸ List.mem_append.mpr (Or.inl h1), ?_⟩
            have := hpre l h1
            simpa using this
          · rcases List.mem_cons.mp h1 with heq | h1
            · rw [heq] at hact
              cases hact
            · refine ⟨he ▸ List.mem_append.mpr (Or.inr (List.mem_cons.mpr (Or.inr h1))), ?_⟩
              intro hlo
              have hl0 : l0.orderId = some oid := by simpa using hP0
              have hnd := h.oidNodup
              rw [he, List.filterMap_append, List.filterMap_cons_some hl0] at hnd
              have hmem2 : oid ∈ l₂.filterMap (fun l => l.orderId) :=
                List.mem_filterMap.mpr ⟨l, h1, hlo⟩
              have hnd2 := (List.nodup_append.mp hnd).2.1
              rw [List.nodup_cons] at hnd2
              exact hnd2.1 hmem2
        rcases h.activeHasOrder l horig.1 hact with ⟨o, ho, hmem⟩
        refine ⟨o, ho, ?_⟩
        apply List.mem_filter.mpr
        refine ⟨hmem, ?_⟩
        have hne : o ≠ oid := by
          intro hoe
          exact horig.2 (by rw [ho, hoe])
        simpa using hne
      · show ((updateFirst (fun l => l.orderId == some oid) cancelMut p.levels).filterMap
            (fun l => l.orderId)).Nodup
        rw [filterMap_orderId_updateFirst (fun l => l.orderId == some oid) cancelMut
          (fun _ => rfl)]
        exact h.oidNodup
  case isFalse => exact h

theorem posInv_applyCancelDCA {p : PositionState} {oid now : Nat} (h : PosInv p) :
    PosInv (applyCancelDCA oid now p) := by
  constructor
  · show ((updateFirst (fun l => l.orderId == some oid) (cancelDCAMut now) p.levels).map
        (fun l => l.level)).Nodup
    rw [map_level_updateFirst (fun l => l.orderId == some oid) (cancelDCAMut now)
      (fun _ => rfl)]
    exact h.ordNodup
  · show (p.activeOrders.erase oid).length ≤ 1
    exact le_trans (List.erase_sublist _ _).length_le h.aoLen
  · intro l hl hact
    have hl' : l ∈ updateFirst (fun l => l.orderId == some oid) (cancelDCAMut now)
        p.levels := hl
    rcases updateFirst_decomp (fun l => l.orderId == some oid) (cancelDCAMut now)
        p.levels with ⟨hnone, hupd⟩ | ⟨l₁, l0, l₂, he, hpre, hP0, _, hupd⟩
    · rw [hupd] at hl'
      rcases h.activeHasOrder l hl' hact with ⟨o, ho, hmem⟩
      refine ⟨o, ho, ?_⟩
      have hne : o ≠ oid := by
        intro hoe
        have := List.find?_eq_none.mp hnone l hl'
        apply this
        rw [ho, hoe]
        simp
      show o ∈ p.activeOrders.erase oid
      rw [List.mem_erase_of_ne hne]
      exact hmem
    · rw [hupd] at hl'
      have horig : l ∈ p.levels ∧ l.orderId ≠ some oid := by
        rcases List.mem_append.mp hl' with h1 | h1
        · refine ⟨he ▸ List.mem_append.mpr (Or.inl h1), ?_⟩
          have := hpre l h1
          simpa using this
        · rcases List.mem_cons.mp h1 with heq | h1
          · rw [heq] at hact
            cases hact
          · refine ⟨he ▸ List.mem_append.mpr (Or.inr (List.mem_cons.mpr (Or.inr h1))), ?_⟩
            intro hlo
            have hl0 : l0.orderId = some oid := by simpa using hP0
            have hnd := h.oidNodup
            rw [he, List.filterMap_append, List.filterMap_cons_some hl0] at hnd
            have hmem2 : oid ∈ l₂.filterMap (fun l => l.orderId) :=
              List.mem_filterMap.mpr ⟨l, h1, hlo⟩
            have hnd2 := (List.nodup_append.mp hnd).2.1
            rw [List.nodup_cons] at hnd2
            exact hnd2.1 hmem2
      rcases h.activeHasOrder l horig.1 hact with ⟨o, ho, hmem⟩
      refine ⟨o, ho, ?_⟩
      have hne : o ≠ oid := by
        intro hoe
        exact horig.2 (by rw [ho, hoe])
      show o ∈ p.activeOrders.erase oid
      rw [List.mem_erase_of_ne hne]
      exact hmem
  · show ((updateFirst (fun l => l.orderId == some oid) (cancelDCAMut now)
        p.levels).filterMap (fun l => l.orderId)).Nodup
    rw [filterMap_orderId_updateFirst (fun l => l.orderId == some oid) (cancelDCAMut now)
      (fun _ => rfl)]
    exact h.oidNodup

theorem posInv_applyFill {p : PositionState} {lvOrd oid : Nat} {fp fq : ℚ} {now : Nat}
    (h : PosInv p) (hcoh : ∀ l ∈ p.levels, l.orderId = some oid → l.level = lvOrd) :
    PosInv (applyFill lvOrd oid fp fq now p) := by
  constructor
  · show ((updateFirst (fun l => l.level == lvOrd) (fillMut fp fq now) p.levels).map
        (fun l => l.level)).Nodup
    rw [map_level_updateFirst (fun l => l.level == lvOrd) (fillMut fp fq now)
      (fun _ => rfl)]
    exact h.ordNodup
  · show (p.activeOrders.filter (fun id => ¬ id = oid)).length ≤ 1
    exact le_trans (List.length_filter_le _ _) h.aoLen
  · intro l hl hact
    have hl' : l ∈ updateFirst (fun l => l.level == lvOrd) (fillMut fp fq now)
        p.levels := hl
    rcases updateFirst_decomp (fun l => l.level == lvOrd) (fillMut fp fq now)
        p.levels with ⟨hnone, hupd⟩ | ⟨l₁, l0, l₂, he, hpre, hP0, _, hupd⟩
    · rw [hupd] at hl'
      rcases h.activeHasOrder l hl' hact with ⟨o, ho, hmem⟩
      refine ⟨o, ho, ?_⟩
      have hne : o ≠ oid := by
        intro hoe
        have hlv : l.level = lvOrd := hcoh l hl' (by rw [ho, hoe])
        have := List.find?_eq_none.mp hnone l hl'
        apply this
        simp [hlv]
      apply List.mem_filter.mpr
      exact ⟨hmem, by simpa using hne⟩
    · rw [hupd] at hl'
      have horig : l ∈ p.levels ∧ l.level ≠ lvOrd := by
        rcases List.mem_append.mp hl' with h1 | h1
        · refine ⟨he ▸ List.mem_append.mpr (Or.inl h1), ?_⟩
          have := hpre l h1
          simpa using this
        · rcases List.mem_cons.mp h1 with heq | h1
          · rw [heq] at hact
            cases hact
          · refine ⟨he ▸ List.mem_append.mpr (Or.inr (List.mem_cons.mpr (Or.inr h1))), ?_⟩
            intro hlv
            have hl0 : l0.level = lvOrd := by simpa using hP0
            have hnd := h.ordNodup
            rw [he, List.map_append, List.map_cons] at hnd
            have hmem2 : l.level ∈ l₂.map (fun l => l.level) :=
              List.mem_map.mpr ⟨l, h1, rfl⟩
            have hnd2 := (List.nodup_append.mp hnd).2.1
            rw [List.nodup_cons] at hnd2
            apply hnd2.1
            rw [hl0, ← hlv]
            exact hmem2
      rcases h.activeHasOrder l horig.1 hact with ⟨o, ho, hmem⟩
      refine ⟨o, ho, ?_⟩
      have hne : o ≠ oid := by
        intro hoe
        exact horig.2 (hcoh l horig.1 (by rw [ho, hoe]))
      apply List.mem_filter.mpr
      exact ⟨hmem, by simpa using hne⟩
  · show ((updateFirst (fun l => l.level == lvOrd) (fillMut fp fq now) p.levels).filterMap
        (fun l => l.orderId)).Nodup
    rw [filterMap_orderId_updateFirst (fun l => l.level == lvOrd) (fillMut fp fq now)
      (fun _ => rfl)]
    exact h.oidNodup

theorem posInv_activateLevel {p : PositionState} {lv : Nat} {cs : Constraints}
    {oid now : Nat} (h : PosInv p) (hao : p.activeOrders = [])
    (hfresh : ∀ l ∈ p.levels, ∀ o, l.orderId = some o → o ≠ oid) :
    PosInv (activateLevel lv cs oid now p) := by
  rcases updateFirst_decomp (fun l => l.level == lv) (activeMut cs oid now) p.levels with
    ⟨hnone, hupd⟩ | ⟨l₁, l0, l₂, he, hpre, hP0, _, hupd⟩
  · constructor
    · show ((updateFirst (fun l => l.level == lv) (activeMut cs oid now) p.levels).map
          (fun l => l.level)).Nodup
      rw [hupd]
      exact h.ordNodup
    · show (p.activeOrders ++ [oid]).length ≤ 1
      rw [hao]
      simp
    · intro l hl hact
      have hl' : l ∈ updateFirst (fun l => l.level == lv) (activeMut cs oid now)
          p.levels := hl
      rw [hupd] at hl'
      rcases h.activeHasOrder l hl' hact with ⟨o, _, hmem⟩
      rw [hao] at hmem
      cases hmem
    · show ((updateFirst (fun l => l.level == lv) (activeMut cs oid now)
          p.levels).filterMap (fun l => l.orderId)).Nodup
      rw [hupd]
      exact h.oidNodup
  · constructor
    · show ((updateFirst (fun l => l.level == lv) (activeMut cs oid now) p.levels).map
          (fun l => l.level)).Nodup
      rw [map_level_updateFirst (fun l => l.level == lv) (activeMut cs oid now)
        (fun _ => rfl)]
      exact h.ordNodup
    · show (p.activeOrders ++ [oid]).length ≤ 1
      rw [hao]
      simp
    · intro l hl hact
      have hl' : l ∈ updateFirst (fun l => l.level == lv) (activeMut cs oid now)
          p.levels := hl
      rw [hupd] at hl'
      rcases List.mem_append.mp hl' with h1 | h1
      · rcases h.activeHasOrder l (he ▸ List.mem_append.mpr (Or.inl h1)) hact with
          ⟨o, _, hmem⟩
        rw [hao] at hmem
        cases hmem
      · rcases List.mem_cons.mp h1 with heq | h1
        · refine ⟨oid, ?_, ?_⟩
          · rw [heq]
            rfl
          · show oid ∈ p.activeOrders ++ [oid]
            simp
        · rcases h.activeHasOrder l
            (he ▸ List.mem_append.mpr (Or.inr (List.mem_cons.mpr (Or.inr h1)))) hact with
            ⟨o, _, hmem⟩
          rw [hao] at hmem
          cases hmem
    · show ((updateFirst (fun l => l.level == lv) (activeMut cs oid now)
          p.levels).filterMap (fun l => l.orderId)).Nodup
      rw [hupd, List.filterMap_append,
        List.filterMap_cons_some (show (activeMut cs oid now l0).orderId = some oid from rfl)]
      rw [List.nodup_middle, List.nodup_cons]
      constructor
      · intro hmem
        rcases List.mem_append.mp hmem with hm | hm
        · rcases List.mem_filterMap.mp hm with ⟨lx, hlx, holx⟩
          exact hfresh lx (he ▸ List.mem_append.mpr (Or.inl hlx)) oid holx rfl
        · rcases List.mem_filterMap.mp hm with ⟨lx, hlx, holx⟩
          exact hfresh lx
            (he ▸ List.mem_append.mpr (Or.inr (List.mem_cons.mpr (Or.inr hlx)))) oid holx rfl
      · have hnd := h.oidNodup
        rw [he, List.filterMap_append] at hnd
        cases ho0 : l0.orderId with
        | none =>
          rw [List.filterMap_cons_none ho0] at hnd
          exact hnd
        | some o0 =>
          rw [List.filterMap_cons_some ho0, List.nodup_middle, List.nodup_cons] at hnd
          exact hnd.2

/-! ## Freshly generated levels -/

theorem generateDCALevelsAux_map_level (cfg : Config) (side : Side)
    (basePrice baseSize atr : ℚ) :
    ∀ (n i : Nat) (dev mult : ℚ),
      (generateDCALevelsAux cfg side basePrice baseSize atr n i dev mult).map
        (fun l => l.level) = List.range' i n := by
  intro n
  induction n with
  | zero => intro i dev mult; rfl
  | succ n ih =>
    intro i dev mult
    show (_ :: generateDCALevelsAux cfg side basePrice baseSize atr n (i + 1)
        (dev * cfg.stepScale) (mult * cfg.volumeScale)).map (fun l => l.level) =
      List.range' i (n + 1)
    rw [List.map_cons, ih, List.range'_succ]

theorem generateDCALevelsAux_fields (cfg : Config) (side : Side)
    (basePrice baseSize atr : ℚ) :
    ∀ (n i : Nat) (dev mult : ℚ),
      ∀ l ∈ generateDCALevelsAux cfg side basePrice baseSize atr n i dev mult,
        l.status = LevelStatus.pending ∧ l.orderId = none := by
  intro n
  induction n with
  | zero => intro i dev mult l hl; cases hl
  | succ n ih =>
    intro i dev mult l hl
    rcases List.mem_cons.mp hl with heq | hm
    · rw [heq]
      exact ⟨rfl, rfl⟩
    · exact ih (i + 1) _ _ l hm

theorem posInv_generated (cfg : Config) (side : Side) (basePrice baseSize atr : ℚ)
    (p : PositionState)
    (hl : p.levels = generateDCALevels cfg side basePrice baseSize atr)
    (ha : p.activeOrders = []) : PosInv p := by
  constructor
  · rw [hl]
    unfold generateDCALevels
    rw [generateDCALevelsAux_map_level]
    exact List.nodup_range' _ _
  · rw [ha]
    simp
  · intro l hlm hact
    rw [hl] at hlm
    have := (generateDCALevelsAux_fields cfg side basePrice baseSize atr _ _ _ _ l hlm).1
    rw [this] at hact
    cases hact
  · rw [hl]
    have hnil : (generateDCALevels cfg side basePrice baseSize atr).filterMap
        (fun l => l.orderId) = [] := by
      rw [List.filterMap_eq_nil_iff]
      intro l hlm
      exact (generateDCALevelsAux_fields cfg side basePrice baseSize atr _ _ _ _ l hlm).2
    rw [hnil]
    exact List.nodup_nil

theorem calculateAverageEntryPrice_congr {p q : PositionState}
    (h1 : q.basePrice = p.basePrice) (h2 : q.baseSize = p.baseSize)
    (h3 : q.executedLevels = p.executedLevels) :
    calculateAverageEntryPrice q = calculateAverageEntryPrice p := by
  unfold calculateAverageEntryPrice
  rw [h1, h2, h3]

/-! ## Engine invariant -/

/-- Engine-wide invariant: every position satisfies its structural invariant,
map keys are distinct, order ids assigned so far are below the fresh-id
counter, and the engine order index is coherent with level ordinals. -/
structure EngInv (s : EngineState) : Prop where
  pos : ∀ e ∈ s.activePositions, PosInv e.2
  pkeys : (s.activePositions.map Prod.fst).Nodup
  okeys : (s.activeOrders.map Prod.fst).Nodup
  oidLt : ∀ e ∈ s.activeOrders, e.1 < s.nextOrderId
  lvlOidLt : ∀ e ∈ s.activePositions, ∀ l ∈ e.2.levels, ∀ o, l.orderId = some o →
      o < s.nextOrderId
  coh : ∀ e ∈ s.activeOrders, ∀ pe ∈ s.activePositions, pe.1 = e.2.positionId →
      ∀ l ∈ pe.2.levels, l.orderId = some e.1 → l.level = e.2.level
  avg : ∀ e ∈ s.activePositions, e.2.averageEntryPrice = calculateAverageEntryPrice e.2

theorem inv_savePersistedData {s : EngineState} (h : EngInv s) :
    EngInv (savePersistedData s) :=
  ⟨h.pos, h.pkeys, h.okeys, h.oidLt, h.lvlOidLt, h.coh, h.avg⟩

/-- Source levels for an `updateFirst` image: every level of the image shares
order id and ordinal with a level of the original list, provided the mutator
preserves both. -/
theorem levels_updateFirst_source {P : Level → Bool} {f : Level → Level}
    {ls : List Level} {l : Level} (hl : l ∈ updateFirst P f ls)
    (hoid : ∀ l, (f l).orderId = l.orderId) (hlvl : ∀ l, (f l).level = l.level) :
    ∃ l', l' ∈ ls ∧ l.orderId = l'.orderId ∧ l.level = l'.level := by
  rcases mem_updateFirst hl with hm | ⟨l0, hm, _, rfl⟩
  · exact ⟨l, hm, rfl, rfl⟩
  · exact ⟨l0, hm, hoid l0, hlvl l0⟩

/-- Invariant preservation for engine steps that rewrite one position in place
and leave the order index, the id counter and the stats untouched. -/
theorem inv_mapPosGeneric {s : EngineState} {pid : Nat} {st : Stats}
    {f : PositionState → PositionState} (h : EngInv s)
    (hpi : ∀ q, (pid, q) ∈ s.activePositions → PosInv q → PosInv (f q))
    (hlv : ∀ q, (pid, q) ∈ s.activePositions → ∀ l ∈ (f q).levels,
        ∃ l', l' ∈ q.levels ∧ l.orderId = l'.orderId ∧ l.level = l'.level)
    (havg : ∀ q, (pid, q) ∈ s.activePositions →
        q.averageEntryPrice = calculateAverageEntryPrice q →
        (f q).averageEntryPrice = calculateAverageEntryPrice (f q)) :
    EngInv { s with activePositions := mapPos s.activePositions pid f, stats := st } := by
  constructor
  · intro e he
    rcases mem_mapPos he with ⟨hmem, _⟩ | ⟨q, hq, rfl⟩
    · exact h.pos e hmem
    · exact hpi q hq (h.pos (pid, q) hq)
  · show ((mapPos s.activePositions pid f).map Prod.fst).Nodup
    rw [map_fst_mapPos]
    exact h.pkeys
  · exact h.okeys
  · exact h.oidLt
  · intro e he l hlm o ho
    rcases mem_mapPos he with ⟨hmem, _⟩ | ⟨q, hq, rfl⟩
    · exact h.lvlOidLt e hmem l hlm o ho
    · rcases hlv q hq l hlm with ⟨l', hl', hoe, _⟩
      exact h.lvlOidLt (pid, q) hq l' hl' o (by rw [← hoe, ho])
  · intro e he pe hpe hk l hlm ho
    rcases mem_mapPos hpe with ⟨hmem, _⟩ | ⟨q, hq, rfl⟩
    · exact h.coh e he pe hmem hk l hlm ho
    · rcases hlv q hq l hlm with ⟨l', hl', hoe, hle⟩
      rw [hle]
      exact h.coh e he (pid, q) hq hk l' hl' (by rw [← hoe, ho])
  · intro e he
    rcases mem_mapPos he with ⟨hmem, _⟩ | ⟨q, hq, rfl⟩
    · exact h.avg e hmem
    · exact havg q hq (h.avg (pid, q) hq)

theorem inv_completeDCAPosition {s : EngineState} {pid now : Nat} (h : EngInv s) :
    EngInv (completeDCAPosition s pid now) := by
  unfold completeDCAPosition
  split
  · exact h
  · apply inv_savePersistedData
    apply inv_mapPosGeneric h
    · exact fun q _ hq => ⟨hq.ordNodup, hq.aoLen, hq.activeHasOrder, hq.oidNodup⟩
    · exact fun q _ l hl => ⟨l, hl, rfl, rfl⟩
    · intro q _ ha
      have hc : calculateAverageEntryPrice
          { q with status := PosStatus.completed, completionTime := some now } =
          calculateAverageEntryPrice q :=
        calculateAverageEntryPrice_congr rfl rfl rfl
      show q.averageEntryPrice = _
      rw [hc]
      exact ha

theorem avg_preserved_of_fields {q r : PositionState} (hbp : r.basePrice = q.basePrice)
    (hbs : r.baseSize = q.baseSize) (hex : r.executedLevels = q.executedLevels)
    (hae : r.averageEntryPrice = q.averageEntryPrice)
    (ha : q.averageEntryPrice = calculateAverageEntryPrice q) :
    r.averageEntryPrice = calculateAverageEntryPrice r := by
  rw [hae, calculateAverageEntryPrice_congr hbp hbs hex]
  exact ha

theorem inv_placeDCAOrder :
    ∀ (out : SubmitOutcome) (s : EngineState) (pid lv : Nat) (cs : Constraints)
      (now : Nat), EngInv s →
      (∀ q, (pid, q) ∈ s.activePositions → q.activeOrders = []) →
      EngInv (placeDCAOrder s pid lv cs now out) := by
  intro out
  induction out with
  | ok =>
    intro s pid lv cs now h hao
    simp only [placeDCAOrder]
    split
    · exact h
    · split
      · apply inv_savePersistedData
        apply inv_mapPosGeneric h
        · exact fun q _ hq => posInv_markLevelFailed hq
        · exact fun q _ l hl => levels_updateFirst_source hl (fun _ => rfl) (fun _ => rfl)
        · exact fun q _ ha => avg_preserved_of_fields rfl rfl rfl rfl ha
      · apply inv_savePersistedData
        constructor
        · intro e he
          rcases mem_mapPos he with ⟨hmem, _⟩ | ⟨q, hq, rfl⟩
          · exact h.pos e hmem
          · refine posInv_activateLevel (h.pos (pid, q) hq) (hao q hq) ?_
            intro l hl o ho hoe
            have := h.lvlOidLt (pid, q) hq l hl o ho
            omega
        · show ((mapPos s.activePositions pid
              (activateLevel lv cs s.nextOrderId now)).map Prod.fst).Nodup
          rw [map_fst_mapPos]
          exact h.pkeys
        · show ((setOrd s.activeOrders s.nextOrderId
              { positionId := pid, level := lv, placedTime := now }).map Prod.fst).Nodup
          rw [setOrd_fresh (fun e he => Nat.ne_of_lt (h.oidLt e he))]
          rw [List.map_append]
          simp only [List.map_cons, List.map_nil]
          rw [List.nodup_append]
          refine ⟨h.okeys, List.nodup_singleton _, ?_⟩
          intro k hk hk2
          have hke : k = s.nextOrderId := by simpa using hk2
          rcases List.mem_map.mp hk with ⟨e, he, hkee⟩
          have := h.oidLt e he
          omega
        · intro e he
          show e.1 < s.nextOrderId + 1
          rw [setOrd_fresh (fun e he => Nat.ne_of_lt (h.oidLt e he))] at he
          rcases List.mem_append.mp he with hm | hm
          · have := h.oidLt e hm
            omega
          · have : e = (s.nextOrderId,
                { positionId := pid, level := lv, placedTime := now }) := by simpa using hm
            rw [this]
            omega
        · intro e he l hlm o ho
          show o < s.nextOrderId + 1
          rcases mem_mapPos he with ⟨hmem, _⟩ | ⟨q, hq, rfl⟩
          · have := h.lvlOidLt e hmem l hlm o ho
            omega
          · have hlm' : l ∈ updateFirst (fun l => l.level == lv)
                (activeMut cs s.nextOrderId now) q.levels := hlm
            rcases mem_updateFirst hlm' with hm | ⟨l0, _, _, rfl⟩
            · have := h.lvlOidLt (pid, q) hq l hm o ho
              omega
            · have : some s.nextOrderId = some o := ho
              have : s.nextOrderId = o := by simpa using this
              omega
        · intro e he pe hpe hk l hlm ho
          rw [setOrd_fresh (fun e he => Nat.ne_of_lt (h.oidLt e he))] at he
          rcases List.mem_append.mp he with hm | hm
          · rcases mem_mapPos hpe with ⟨hmem, _⟩ | ⟨q, hq, rfl⟩
            · exact h.coh e hm pe hmem hk l hlm ho
            · have hlm' : l ∈ updateFirst (fun l => l.level == lv)
                  (activeMut cs s.nextOrderId now) q.levels := hlm
              rcases mem_updateFirst hlm' with hmm | ⟨l0, _, _, rfl⟩
              · exact h.coh e hm (pid, q) hq hk l hmm ho
              · exfalso
                have h1 : some s.nextOrderId = some e.1 := ho
                have h2 : s.nextOrderId = e.1 := by simpa using h1
                have := h.oidLt e hm
                omega
          · have hme : e = (s.nextOrderId,
                { positionId := pid, level := lv, placedTime := now }) := by simpa using hm
            subst hme
            rcases mem_mapPos hpe with ⟨_, hne⟩ | ⟨q, hq, rfl⟩
            · exact absurd hk hne
            · have hlm' : l ∈ updateFirst (fun l => l.level == lv)
                  (activeMut cs s.nextOrderId now) q.levels := hlm
              rcases mem_updateFirst hlm' with hmm | ⟨l0, _, hP0, rfl⟩
              · exfalso
                have := h.lvlOidLt (pid, q) hq l hmm s.nextOrderId ho
                omega
              · show (activeMut cs s.nextOrderId now l0).level = lv
                have : l0.level = lv := by simpa using hP0
                exact this
        · intro e he
          rcases mem_mapPos he with ⟨hmem, _⟩ | ⟨q, hq, rfl⟩
          · exact h.avg e hmem
          · exact avg_preserved_of_fields rfl rfl rfl rfl (h.avg (pid, q) hq)
  | err msg next ih =>
    intro s pid lv cs now h hao
    simp only [placeDCAOrder]
    split
    · exact h
    · split
      · apply inv_savePersistedData
        apply inv_mapPosGeneric h
        · exact fun q _ hq => posInv_markLevelFailed hq
        · exact fun q _ l hl => levels_updateFirst_source hl (fun _ => rfl) (fun _ => rfl)
        · exact fun q _ ha => avg_preserved_of_fields rfl rfl rfl rfl ha
      · split
        · apply ih
          · apply inv_mapPosGeneric h
            · exact fun q _ hq => posInv_processLevelSize hq
            · exact fun q _ l hl =>
                levels_updateFirst_source hl (fun _ => rfl) (fun _ => rfl)
            · exact fun q _ ha => avg_preserved_of_fields rfl rfl rfl rfl ha
          · intro q hq
            rcases mem_mapPos hq with ⟨_, hne⟩ | ⟨q', hq', heq⟩
            · exact absurd rfl hne
            · have : q = processLevelSize lv cs q' := congrArg Prod.snd heq
              rw [this]
              show q'.activeOrders = []
              exact hao q' hq'
        · apply inv_savePersistedData
          apply inv_mapPosGeneric h
          · exact fun q _ hq => posInv_markLevelFailedSized hq
          · exact fun q _ l hl =>
              levels_updateFirst_source hl (fun _ => rfl) (fun _ => rfl)
          · exact fun q _ ha => avg_preserved_of_fields rfl rfl rfl rfl ha

theorem inv_placeNextDCAOrder {s : EngineState} {pid : Nat} {cs : Constraints}
    {out : SubmitOutcome} {now : Nat} (h : EngInv s) :
    EngInv (placeNextDCAOrder s pid cs out now) := by
  unfold placeNextDCAOrder
  split
  · exact h
  next p hp =>
    split
    · exact inv_completeDCAPosition h
    · split
      · exact h
      next hlen =>
        split
        · apply inv_placeDCAOrder _ _ _ _ _ _ h
          intro q hq
          have hqp : q = p := lookupPos_eq_of_mem h.pkeys hp hq
          rw [hqp]
          have : p.activeOrders.length = 0 := by omega
          exact List.length_eq_zero.mp this
        · exact h

theorem applyFill_avg (lvOrd oid : Nat) (fp fq : ℚ) (now : Nat) (q : PositionState) :
    (applyFill lvOrd oid fp fq now q).averageEntryPrice =
      calculateAverageEntryPrice (applyFill lvOrd oid fp fq now q) :=
  (calculateAverageEntryPrice_congr rfl rfl rfl).symm

theorem inv_handleOrderFill {s : EngineState} {oid : Nat} {fp fq : ℚ}
    {cs : Constraints} {out : SubmitOutcome} {now : Nat} (h : EngInv s) :
    EngInv (handleOrderFill s oid fp fq cs out now) := by
  unfold handleOrderFill
  split
  · exact h
  next info hinfo =>
    split
    · exact h
    next p hp =>
      split
      · exact h
      next l0 hl0 =>
        apply inv_placeNextDCAOrder
        apply inv_savePersistedData
        have hoe : (oid, info) ∈ s.activeOrders := lookupOrd_mem hinfo
        constructor
        · intro e he
          rcases mem_mapPos he with ⟨hmem, _⟩ | ⟨q, hq, rfl⟩
          · exact h.pos e hmem
          · refine posInv_applyFill (h.pos _ hq) ?_
            intro l hl ho
            exact h.coh (oid, info) hoe (info.positionId, q) hq rfl l hl ho
        · show ((mapPos s.activePositions info.positionId
              (applyFill info.level oid fp fq now)).map Prod.fst).Nodup
          rw [map_fst_mapPos]
          exact h.pkeys
        · exact ((eraseOrd_sublist _ _).map Prod.fst).nodup h.okeys
        · exact fun e he => h.oidLt e (mem_eraseOrd he).1
        · intro e he l hlm o ho
          rcases mem_mapPos he with ⟨hmem, _⟩ | ⟨q, hq, rfl⟩
          · exact h.lvlOidLt e hmem l hlm o ho
          · rcases levels_updateFirst_source hlm (fun _ => rfl) (fun _ => rfl) with
              ⟨l', hl', hoeq, _⟩
            exact h.lvlOidLt _ hq l' hl' o (by rw [← hoeq, ho])
        · intro e he pe hpe hk l hlm ho
          have he' := (mem_eraseOrd he).1
          rcases mem_mapPos hpe with ⟨hmem, _⟩ | ⟨q, hq, rfl⟩
          · exact h.coh e he' pe hmem hk l hlm ho
          · rcases levels_updateFirst_source hlm (fun _ => rfl) (fun _ => rfl) with
              ⟨l', hl', hoeq, hle⟩
            rw [hle]
            exact h.coh e he' _ hq hk l' hl' (by rw [← hoeq, ho])
        · intro e he
          rcases mem_mapPos he with ⟨hmem, _⟩ | ⟨q, hq, rfl⟩
          · exact h.avg e hmem
          · exact applyFill_avg info.level oid fp fq now q

theorem applyCancel_levels_source {oid : Nat} {q : PositionState} {l : Level}
    (hl : l ∈ (applyCancel oid q).levels) :
    ∃ l', l' ∈ q.levels ∧ l.orderId = l'.orderId ∧ l.level = l'.level := by
  unfold applyCancel at hl
  split at hl
  · exact levels_updateFirst_source hl (fun _ => rfl) (fun _ => rfl)
  · exact ⟨l, hl, rfl, rfl⟩

theorem applyCancel_avgFields (oid : Nat) (q : PositionState) :
    (applyCancel oid q).basePrice = q.basePrice ∧
    (applyCancel oid q).baseSize = q.baseSize ∧
    (applyCancel oid q).executedLevels = q.executedLevels ∧
    (applyCancel oid q).averageEntryPrice = q.averageEntryPrice := by
  unfold applyCancel
  split <;> exact ⟨rfl, rfl, rfl, rfl⟩

theorem applyCancelFailed_levels_source {oid : Nat} {q : PositionState} {l : Level}
    (hl : l ∈ (applyCancelFailed oid q).levels) :
    ∃ l', l' ∈ q.levels ∧ l.orderId = l'.orderId ∧ l.level = l'.level := by
  unfold applyCancelFailed at hl
  split at hl
  · exact ⟨l, hl, rfl, rfl⟩
  · split at hl
    · exact levels_updateFirst_source hl (fun _ => rfl) (fun _ => rfl)
    · exact ⟨l, hl, rfl, rfl⟩

theorem applyCancelFailed_avgFields (oid : Nat) (q : PositionState) :
    (applyCancelFailed oid q).basePrice = q.basePrice ∧
    (applyCancelFailed oid q).baseSize = q.baseSize ∧
    (applyCancelFailed oid q).executedLevels = q.executedLevels ∧
    (applyCancelFailed oid q).averageEntryPrice = q.averageEntryPrice := by
  unfold applyCancelFailed
  split
  · exact ⟨rfl, rfl, rfl, rfl⟩
  · split <;> exact ⟨rfl, rfl, rfl, rfl⟩

theorem inv_cancelOrder {s : EngineState} {oid : Nat} (c : CancelOutcome)
    (h : EngInv s) : EngInv (cancelOrder s oid c) := by
  cases c with
  | ok =>
    apply inv_savePersistedData
    constructor
    · intro e he
      rcases List.mem_map.mp he with ⟨e', he', rfl⟩
      exact posInv_applyCancel (h.pos e' he')
    · show ((s.activePositions.map (fun e => (e.1, applyCancel oid e.2))).map
          Prod.fst).Nodup
      rw [List.map_map]
      rw [listMapCongr _ (fun e _ => rfl : ∀ e ∈ s.activePositions,
        (Prod.fst ∘ fun e => (e.1, applyCancel oid e.2)) e = Prod.fst e)]
      exact h.pkeys
    · exact ((eraseOrd_sublist _ _).map Prod.fst).nodup h.okeys
    · exact fun e he => h.oidLt e (mem_eraseOrd he).1
    · intro e he l hlm o ho
      rcases List.mem_map.mp he with ⟨e', he', rfl⟩
      rcases applyCancel_levels_source hlm with ⟨l', hl', hoeq, _⟩
      exact h.lvlOidLt e' he' l' hl' o (by rw [← hoeq, ho])
    · intro e he pe hpe hk l hlm ho
      have he' := (mem_eraseOrd he).1
      rcases List.mem_map.mp hpe with ⟨pe', hpe', rfl⟩
      rcases applyCancel_levels_source hlm with ⟨l', hl', hoeq, hle⟩
      rw [hle]
      exact h.coh e he' pe' hpe' hk l' hl' (by rw [← hoeq, ho])
    · intro e he
      rcases List.mem_map.mp he with ⟨e', he', rfl⟩
      obtain ⟨h1, h2, h3, h4⟩ := applyCancel_avgFields oid e'.2
      exact avg_preserved_of_fields h1 h2 h3 h4 (h.avg e' he')
  | err msg =>
    constructor
    · intro e he
      rcases List.mem_map.mp he with ⟨e', he', rfl⟩
      exact posInv_applyCancelFailed (h.pos e' he')
    · show ((s.activePositions.map (fun e => (e.1, applyCancelFailed oid e.2))).map
          Prod.fst).Nodup
      rw [List.map_map]
      rw [listMapCongr _ (fun e _ => rfl : ∀ e ∈ s.activePositions,
        (Prod.fst ∘ fun e => (e.1, applyCancelFailed oid e.2)) e = Prod.fst e)]
      exact h.pkeys
    · exact h.okeys
    · exact h.oidLt
    · intro e he l hlm o ho
      rcases List.mem_map.mp he with ⟨e', he', rfl⟩
      rcases applyCancelFailed_levels_source hlm with ⟨l', hl', hoeq, _⟩
      exact h.lvlOidLt e' he' l' hl' o (by rw [← hoeq, ho])
    · intro e he pe hpe hk l hlm ho
      rcases List.mem_map.mp hpe with ⟨pe', hpe', rfl⟩
      rcases applyCancelFailed_levels_source hlm with ⟨l', hl', hoeq, hle⟩
      rw [hle]
      exact h.coh e he pe' hpe' hk l' hl' (by rw [← hoeq, ho])
    · intro e he
      rcases List.mem_map.mp he with ⟨e', he', rfl⟩
      obtain ⟨h1, h2, h3, h4⟩ := applyCancelFailed_avgFields oid e'.2
      exact avg_preserved_of_fields h1 h2 h3 h4 (h.avg e' he')

theorem inv_savePositionsOnly {s : EngineState} (h : EngInv s) :
    EngInv (savePositionsOnly s) :=
  ⟨h.pos, h.pkeys, h.okeys, h.oidLt, h.lvlOidLt, h.coh, h.avg⟩

theorem inv_cancelDCAOrder {s : EngineState} {pid oid : Nat} {c : CancelOutcome}
    {now : Nat} (h : EngInv s) : EngInv (cancelDCAOrder s pid oid c now) := by
  unfold cancelDCAOrder
  have h1 : EngInv (cancelOrder s oid c) := inv_cancelOrder c h
  dsimp only
  split
  · exact h1
  · apply inv_savePositionsOnly
    apply inv_mapPosGeneric h1
    · exact fun q _ hq => posInv_applyCancelDCA hq
    · exact fun q _ l hl => levels_updateFirst_source hl (fun _ => rfl) (fun _ => rfl)
    · exact fun q _ ha => avg_preserved_of_fields rfl rfl rfl rfl ha

theorem newPositionState_levels_pending (cfg : Config) (pid : Nat) (symbol : String)
    (side : Side) (bp bs atr : ℚ) (now : Nat) :
    ∀ l ∈ (newPositionState cfg pid symbol side bp bs atr now).levels,
      l.status = LevelStatus.pending ∧ l.orderId = none := by
  intro l hl
  exact generateDCALevelsAux_fields cfg side bp bs atr _ _ _ _ l hl

theorem inv_initSuccess {s : EngineState} {pid : Nat} {symbol : String} {side : Side}
    {bp bs atr : ℚ} {now : Nat} {st : Stats} (h : EngInv s) :
    EngInv { s with
      activePositions := setPos s.activePositions pid
        (newPositionState s.config pid symbol side bp bs atr now)
      stats := st } := by
  constructor
  · intro e he
    rcases mem_setPos he with ⟨hmem, _⟩ | rfl
    · exact h.pos e hmem
    · exact posInv_generated s.config side bp bs atr _ rfl rfl
  · exact map_fst_setPos_nodup h.pkeys
  · exact h.okeys
  · exact h.oidLt
  · intro e he l hlm o ho
    rcases mem_setPos he with ⟨hmem, _⟩ | rfl
    · exact h.lvlOidLt e hmem l hlm o ho
    · have := (newPositionState_levels_pending s.config pid symbol side bp bs atr now
        l hlm).2
      rw [this] at ho
      cases ho
  · intro e he pe hpe hk l hlm ho
    rcases mem_setPos hpe with ⟨hmem, _⟩ | rfl
    · exact h.coh e he pe hmem hk l hlm ho
    · have := (newPositionState_levels_pending s.config pid symbol side bp bs atr now
        l hlm).2
      rw [this] at ho
      cases ho
  · intro e he
    rcases mem_setPos he with ⟨hmem, _⟩ | rfl
    · exact h.avg e hmem
    · rfl

theorem inv_initializeDCAPosition {s : EngineState} {pid : Nat} {symbol : String}
    {side : Side} {bp bs : ℚ} {atrRes : Option ℚ} {cs : Constraints}
    {out : SubmitOutcome} {now : Nat} (h : EngInv s) :
    EngInv (initializeDCAPosition s pid symbol side bp bs atrRes cs out now).1 := by
  unfold initializeDCAPosition
  split
  · exact h
  · split
    · exact h
    · dsimp only
      split
      · exact inv_placeNextDCAOrder (inv_savePersistedData (inv_initSuccess h))
      · exact inv_savePersistedData (inv_initSuccess h)

theorem inv_initialEngine (cfg : Config) : EngInv (initialEngine cfg) := by
  constructor
  · intro e he
    cases he
  · exact List.nodup_nil
  · exact List.nodup_nil
  · intro e he
    cases he
  · intro e he
    cases he
  · intro e he
    cases he
  · intro e he
    cases he

theorem inv_step {s : EngineState} (op : Op) (h : EngInv s) : EngInv (step s op) := by
  cases op with
  | opInit pid symbol side bp bs atrRes cs out now => exact inv_initializeDCAPosition h
  | opFill oid fp fq cs out now => exact inv_handleOrderFill h
  | opPlaceNext pid cs out now => exact inv_placeNextDCAOrder h
  | opCancel oid c => exact inv_cancelOrder c h
  | opCancelDCA pid oid c now => exact inv_cancelDCAOrder h

theorem inv_foldl (ops : List Op) :
    ∀ (s : EngineState), EngInv s → EngInv (ops.foldl step s) := by
  induction ops with
  | nil => intro s h; exact h
  | cons op rest ih =>
    intro s h
    exact ih (step s op) (inv_step op h)

theorem inv_run (cfg : Config) (ops : List Op) : EngInv (run cfg ops) :=
  inv_foldl ops (initialEngine cfg) (inv_initialEngine cfg)

/-! ## Average-entry-price refinement lemmas -/

theorem avgFold (ls : List Level)
    (htr : ∀ l ∈ ls, truthyOpt l.fillPrice = true ∧ truthyOpt l.filledQty = true) :
    ∀ (a b : ℚ),
      ls.foldl (fun acc l =>
        if truthyOpt l.fillPrice && truthyOpt l.filledQty then
          (acc.1 + l.fillPrice.getD 0 * l.filledQty.getD 0, acc.2 + l.filledQty.getD 0)
        else acc) (a, b) = (a + sumFillValues ls, b + sumFillQtys ls) := by
  induction ls with
  | nil =>
    intro a b
    simp [sumFillValues, sumFillQtys]
  | cons l t ih =>
    intro a b
    have hl := htr l (by simp)
    rw [List.foldl_cons]
    rw [if_pos (by rw [hl.1, hl.2]; rfl)]
    rw [ih (fun x hx => htr x (by simp [hx]))]
    unfold sumFillValues sumFillQtys
    simp only [List.map_cons, List.sum_cons, Prod.mk.injEq]
    constructor <;> ring

theorem calcAvg_spec {p : PositionState}
    (htr : ∀ l ∈ p.executedLevels,
      truthyOpt l.fillPrice = true ∧ truthyOpt l.filledQty = true)
    (hbs : p.baseSize ≠ 0) :
    calculateAverageEntryPrice p = specWeightedAverage p := by
  unfold calculateAverageEntryPrice specWeightedAverage
  split
  next hnil =>
    rw [hnil]
    unfold sumFillValues sumFillQtys
    simp only [List.map_nil, List.sum_nil, add_zero]
    rw [mul_div_assoc, div_self hbs, mul_one]
  next hnil =>
    rw [avgFold p.executedLevels htr]

/-! ## Map lookup after in-place update -/

theorem lookupPos_mapPos (ps : List (Nat × PositionState)) (pid : Nat)
    (f : PositionState → PositionState) :
    lookupPos (mapPos ps pid f) pid = (lookupPos ps pid).map f := by
  induction ps with
  | nil => rfl
  | cons e t ih =>
    by_cases hh : e.1 = pid
    · show lookupPos ((if e.1 = pid then (e.1, f e.2) else e) :: mapPos t pid f) pid = _
      rw [if_pos hh]
      unfold lookupPos
      rw [List.find?_cons_of_pos _ (by simp [hh]), List.find?_cons_of_pos _ (by simp [hh])]
      simp
    · show lookupPos ((if e.1 = pid then (e.1, f e.2) else e) :: mapPos t pid f) pid = _
      rw [if_neg hh]
      unfold lookupPos
      rw [List.find?_cons_of_neg _ (by simp [hh]), List.find?_cons_of_neg _ (by simp [hh])]
      exact ih

/-! ## Wilder smoothing refinement lemmas -/

theorem trueRanges_length : ∀ ks : List Kline, (trueRanges ks).length = ks.length - 1
  | [] => rfl
  | [_] => rfl
  | a :: b :: r => by
    show (trOf a b :: trueRanges (b :: r)).length = (b :: r).length
    rw [List.length_cons, trueRanges_length (b :: r)]
    simp

theorem trueRanges_getD : ∀ (ks : List Kline) (i : Nat),
    i < (trueRanges ks).length → (trueRanges ks).getD i 0 = specTrueRange ks (i + 1)
  | [], i, h => by cases h
  | [_], i, h => by cases h
  | a :: b :: r, 0, _ => by
    show trOf a b = specTrueRange (a :: b :: r) 1
    unfold trOf specTrueRange
    simp [List.getD]
  | a :: b :: r, (i + 1), h => by
    show (trueRanges (b :: r)).getD i 0 = specTrueRange (a :: b :: r) (i + 2)
    have hlen : i < (trueRanges (b :: r)).length := by
      have : (trueRanges (a :: b :: r)).length = (trueRanges (b :: r)).length + 1 := rfl
      omega
    rw [trueRanges_getD (b :: r) i hlen]
    unfold specTrueRange
    simp [List.getD_cons_succ]

theorem specATRseq_succ (p : ℚ) (tr : Nat → ℚ) (n : Nat) (h : 1 ≤ n) :
    specATRseq p tr (n + 1) = (specATRseq p tr n * (p - 1) + tr (n + 1)) / p := by
  match n, h with
  | (m + 1), _ => rfl

theorem specATRseq_congr (p : ℚ) (tr1 tr2 : Nat → ℚ) :
    ∀ n, (∀ i, 1 ≤ i → i ≤ n → tr1 i = tr2 i) → 1 ≤ n →
      specATRseq p tr1 n = specATRseq p tr2 n
  | 0, _, hn => by cases hn
  | 1, h, _ => by
    show tr1 1 = tr2 1
    exact h 1 (by omega) (by omega)
  | (n + 2), h, _ => by
    show (specATRseq p tr1 (n + 1) * (p - 1) + tr1 (n + 2)) / p = _
    rw [specATRseq_congr p tr1 tr2 (n + 1) (fun i h1 h2 => h i h1 (by omega)) (by omega)]
    rw [h (n + 2) (by omega) (by omega)]
    rfl

theorem tail_append_singleton {l : List ℚ} {x : ℚ} (h : l ≠ []) :
    (l ++ [x]).tail = l.tail ++ [x] := by
  cases l with
  | nil => exact absurd rfl h
  | cons a t => rfl

theorem headD_append_singleton {l : List ℚ} {x : ℚ} (h : l ≠ []) :
    (l ++ [x]).headD 0 = l.headD 0 := by
  cases l with
  | nil => exact absurd rfl h
  | cons a t => rfl

theorem getD_append_length (l : List ℚ) (x : ℚ) : (l ++ [x]).getD l.length 0 = x := by
  induction l with
  | nil => rfl
  | cons a t ih => exact ih

theorem foldl_wilder (p : ℚ) (g : ℚ → ℚ → ℚ) (hg : g = fun atr tr => (atr * (p - 1) + tr) / p) :
    ∀ (trs : List ℚ), trs ≠ [] →
      trs.tail.foldl g (trs.headD 0) =
        specATRseq p (fun i => trs.getD (i - 1) 0) trs.length := by
  intro trs
  induction trs using List.reverseRecOn with
  | nil => intro h; exact absurd rfl h
  | append_singleton l x ih =>
    intro _
    by_cases hl : l = []
    · subst hl
      simp only [List.nil_append]
      rfl
    · rw [tail_append_singleton hl, headD_append_singleton hl]
      rw [List.foldl_append]
      rw [ih hl]
      have hlen : (l ++ [x]).length = l.length + 1 := by simp
      rw [hlen]
      have hl1 : 1 ≤ l.length := by
        cases l with
        | nil => exact absurd rfl hl
        | cons a t => simp
      rw [specATRseq_succ p _ l.length hl1]
      rw [specATRseq_congr p (fun i => l.getD (i - 1) 0) (fun i => (l ++ [x]).getD (i - 1) 0)
        l.length
        (fun i h1 h2 => by
          show l.getD (i - 1) 0 = (l ++ [x]).getD (i - 1) 0
          rw [List.getD_append _ _ _ _ (by omega)])
        hl1]
      have hx : (l ++ [x]).getD (l.length + 1 - 1) 0 = x := by
        simp only [Nat.add_sub_cancel]
        exact getD_append_length l x
      rw [hx]
      simp only [List.foldl_cons, List.foldl_nil]
      rw [hg]

theorem isRateLimitMsg_boom : isRateLimitMsg "boom" = false := by decide

theorem isRateLimitMsg_hit : isRateLimitMsg "hit rate limit" = true := by decide

theorem natbeq_decide (a b : Nat) : (a == b) = decide (a = b) :=
  Bool.beq_eq_decide_eq a b

theorem strbeq_decide (a b : String) : (a == b) = decide (a = b) :=
  Bool.beq_eq_decide_eq a b

theorem lsbeq_fp : (LevelStatus.failed == LevelStatus.pending) = false := rfl

theorem lsbeq_pp : (LevelStatus.pending == LevelStatus.pending) = true := rfl

theorem lsbeq_ap : (LevelStatus.active == LevelStatus.pending) = false := rfl

theorem lsbeq_lp : (LevelStatus.filled == LevelStatus.pending) = false := rfl

theorem lsbeq_aa : (LevelStatus.active == LevelStatus.active) = true := rfl

theorem lsbeq_pa : (LevelStatus.pending == LevelStatus.active) = false := rfl

theorem lsbeq_la : (LevelStatus.filled == LevelStatus.active) = false := rfl

theorem lsbeq_fa : (LevelStatus.failed == LevelStatus.active) = false := rfl

/-! ## `placeNextDCAOrder` no-op characterization -/

theorem placeNext_noop {s : EngineState} {pid : Nat} {cs : Constraints}
    {out : SubmitOutcome} {now : Nat} {p : PositionState}
    (hp : lookupPos s.activePositions pid = some p)
    (hcond : 1 ≤ p.activeOrders.length ∨
      p.levels.find? (fun l => l.status == LevelStatus.pending) = none) :
    (placeNextDCAOrder s pid cs out now).activeOrders = s.activeOrders ∧
    (placeNextDCAOrder s pid cs out now).nextOrderId = s.nextOrderId ∧
    (placeNextDCAOrder s pid cs out now).stats.totalOrders = s.stats.totalOrders ∧
    (placeNextDCAOrder s pid cs out now).activePositions.map
        (fun e => (e.1, e.2.levels, e.2.activeOrders)) =
      s.activePositions.map (fun e => (e.1, e.2.levels, e.2.activeOrders)) := by
  unfold placeNextDCAOrder
  rw [hp]
  dsimp only
  split
  · unfold completeDCAPosition
    rw [hp]
    dsimp only
    refine ⟨rfl, rfl, rfl, ?_⟩
    show (mapPos s.activePositions pid
        (fun p => { p with status := PosStatus.completed,
                           completionTime := some now })).map
        (fun e => (e.1, e.2.levels, e.2.activeOrders)) =
      s.activePositions.map (fun e => (e.1, e.2.levels, e.2.activeOrders))
    unfold mapPos
    rw [List.map_map]
    apply listMapCongr
    intro e _
    by_cases hh : e.1 = pid <;> simp [hh]
  · split
    · exact ⟨rfl, rfl, rfl, rfl⟩
    next hlen =>
      rcases hcond with hc | hc
      · exact absurd hc hlen
      · rw [hc]
        exact ⟨rfl, rfl, rfl, rfl⟩

/-- C1: across any operation sequence from a fresh engine, every position has
at most one level with status `active`; and `placeNextDCAOrder` places no
order and changes no level (and no position's active-order list) whenever the
position already has an active order or no pending level remains.  (When the
executed-level count has reached `dcaNumOrders` the call may still mark the
position completed, which touches neither levels nor orders.) -/
theorem C1_sequential_ladder :
    (∀ (cfg : Config) (ops : List Op), ∀ e ∈ (run cfg ops).activePositions,
        countActive e.2.levels ≤ 1) ∧
    (∀ (s : EngineState) (pid : Nat) (cs : Constraints) (out : SubmitOutcome)
        (now : Nat) (p : PositionState),
        lookupPos s.activePositions pid = some p →
        (1 ≤ p.activeOrders.length ∨
          p.levels.find? (fun l => l.status == LevelStatus.pending) = none) →
        (placeNextDCAOrder s pid cs out now).activeOrders = s.activeOrders ∧
        (placeNextDCAOrder s pid cs out now).nextOrderId = s.nextOrderId ∧
        (placeNextDCAOrder s pid cs out now).stats.totalOrders = s.stats.totalOrders ∧
        (placeNextDCAOrder s pid cs out now).activePositions.map
            (fun e => (e.1, e.2.levels, e.2.activeOrders)) =
          s.activePositions.map (fun e => (e.1, e.2.levels, e.2.activeOrders))) :=
  ⟨fun cfg ops e he => countActive_le_one ((inv_run cfg ops).pos e he),
   fun _ _ _ _ _ _ hp hcond => placeNext_noop hp hcond⟩

theorem C1_witness :
    countActive posW.levels ≤ 1 ∧
    (placeNextDCAOrder (run cfgOne opsOne) 1 csUnit SubmitOutcome.ok 5).activeOrders =
      (run cfgOne opsOne).activeOrders :=
  ⟨C1_sequential_ladder.1 cfgOne opsOne (1, posW) (by norm_num [run, step, initialEngine, initialStats, initializeDCAPosition,
    newPositionState, generateDCALevels, generateDCALevelsAux, calculateOrderPrice,
    calculateOrderSize, placeNextDCAOrder, placeDCAOrder, completeDCAPosition,
    savePersistedData, savePositionsOnly, processOrderQuantity, jsRound, lookupPos,
    lookupOrd, mapPos, setPos, setOrd, eraseOrd, updateFirst, handleOrderFill,
    applyFill, fillMut, activeMut, failedMut, sizedMut, failedSizedMut, cancelMut,
    cancelFailedMut, cancelDCAMut, markLevelFailed, markLevelFailedSized,
    processLevelSize, activateLevel, applyCancel, applyCancelFailed, applyCancelDCA,
    cancelOrder, cancelDCAOrder, calculateAverageEntryPrice, truthyOpt,
    isRateLimitMsg_boom, isRateLimitMsg_hit, countActive, List.find?, List.any, natbeq_decide, strbeq_decide, lsbeq_fp, lsbeq_pp, lsbeq_ap, lsbeq_lp, lsbeq_aa, lsbeq_pa, lsbeq_la, lsbeq_fa, posW, cfgOne, csUnit, opsOne,
    opsFailInit, opsFill, opsZeroFill, pFailed, pDone, pZeroFill]),
   (C1_sequential_ladder.2 (run cfgOne opsOne) 1 csUnit SubmitOutcome.ok 5 posW
     (by norm_num [run, step, initialEngine, initialStats, initializeDCAPosition,
    newPositionState, generateDCALevels, generateDCALevelsAux, calculateOrderPrice,
    calculateOrderSize, placeNextDCAOrder, placeDCAOrder, completeDCAPosition,
    savePersistedData, savePositionsOnly, processOrderQuantity, jsRound, lookupPos,
    lookupOrd, mapPos, setPos, setOrd, eraseOrd, updateFirst, handleOrderFill,
    applyFill, fillMut, activeMut, failedMut, sizedMut, failedSizedMut, cancelMut,
    cancelFailedMut, cancelDCAMut, markLevelFailed, markLevelFailedSized,
    processLevelSize, activateLevel, applyCancel, applyCancelFailed, applyCancelDCA,
    cancelOrder, cancelDCAOrder, calculateAverageEntryPrice, truthyOpt,
    isRateLimitMsg_boom, isRateLimitMsg_hit, countActive, List.find?, List.any, natbeq_decide, strbeq_decide, lsbeq_fp, lsbeq_pp, lsbeq_ap, lsbeq_lp, lsbeq_aa, lsbeq_pa, lsbeq_la, lsbeq_fa, posW, cfgOne, csUnit, opsOne,
    opsFailInit, opsFill, opsZeroFill, pFailed, pDone, pZeroFill]) (Or.inl (by norm_num [posW]))).1⟩

/-- C2: while an active position exists for (symbol, side), a second
`initializeDCAPosition` for the same pair returns the duplicate-position error
and the returned engine state is exactly the input state — the original
position, the counters and the persisted snapshots are all untouched. -/
theorem C2_duplicate_init {s : EngineState} {pid : Nat} {symbol : String}
    {side : Side} {bp bs : ℚ} {atrRes : Option ℚ} {cs : Constraints}
    {out : SubmitOutcome} {now : Nat}
    (hdup : ∃ e ∈ s.activePositions, e.2.symbol = symbol ∧ e.2.side = side ∧
      e.2.status = PosStatus.active) :
    initializeDCAPosition s pid symbol side bp bs atrRes cs out now =
      (s, Except.error DCAErr.duplicatePosition) := by
  unfold initializeDCAPosition
  rw [if_pos]
  rcases hdup with ⟨e, he, h1, h2, h3⟩
  exact List.any_eq_true.mpr ⟨e, he, by simp [h1, h2, h3]⟩

theorem C2_witness :
    initializeDCAPosition (run cfgOne opsOne) 2 "BTCUSDT" Side.long 50 5 (some 2)
        csUnit SubmitOutcome.ok 9 =
      (run cfgOne opsOne, Except.error DCAErr.duplicatePosition) :=
  C2_duplicate_init ⟨(1, posW), by norm_num [run, step, initialEngine, initialStats, initializeDCAPosition,
    newPositionState, generateDCALevels, generateDCALevelsAux, calculateOrderPrice,
    calculateOrderSize, placeNextDCAOrder, placeDCAOrder, completeDCAPosition,
    savePersistedData, savePositionsOnly, processOrderQuantity, jsRound, lookupPos,
    lookupOrd, mapPos, setPos, setOrd, eraseOrd, updateFirst, handleOrderFill,
    applyFill, fillMut, activeMut, failedMut, sizedMut, failedSizedMut, cancelMut,
    cancelFailedMut, cancelDCAMut, markLevelFailed, markLevelFailedSized,
    processLevelSize, activateLevel, applyCancel, applyCancelFailed, applyCancelDCA,
    cancelOrder, cancelDCAOrder, calculateAverageEntryPrice, truthyOpt,
    isRateLimitMsg_boom, isRateLimitMsg_hit, countActive, List.find?, List.any, natbeq_decide, strbeq_decide, lsbeq_fp, lsbeq_pp, lsbeq_ap, lsbeq_lp, lsbeq_aa, lsbeq_pa, lsbeq_la, lsbeq_fa, posW, cfgOne, csUnit, opsOne,
    opsFailInit, opsFill, opsZeroFill, pFailed, pDone, pZeroFill], rfl, rfl, rfl⟩

/-- C9: a fill notification whose order id is not in the engine's active-order
index is a complete no-op: the returned state is exactly the input state, so
no position, level, counter or persisted snapshot changes (and nothing is
thrown — the embedding is total). -/
theorem C9_unknown_fill_noop {s : EngineState} {oid : Nat} {fp fq : ℚ}
    {cs : Constraints} {out : SubmitOutcome} {now : Nat}
    (h : lookupOrd s.activeOrders oid = none) :
    handleOrderFill s oid fp fq cs out now = s := by
  unfold handleOrderFill
  rw [h]

theorem C9_witness :
    handleOrderFill (run cfgOne opsOne) 99 5 5 csUnit SubmitOutcome.ok 3 =
      run cfgOne opsOne :=
  C9_unknown_fill_noop (by norm_num [run, step, initialEngine, initialStats, initializeDCAPosition,
    newPositionState, generateDCALevels, generateDCALevelsAux, calculateOrderPrice,
    calculateOrderSize, placeNextDCAOrder, placeDCAOrder, completeDCAPosition,
    savePersistedData, savePositionsOnly, processOrderQuantity, jsRound, lookupPos,
    lookupOrd, mapPos, setPos, setOrd, eraseOrd, updateFirst, handleOrderFill,
    applyFill, fillMut, activeMut, failedMut, sizedMut, failedSizedMut, cancelMut,
    cancelFailedMut, cancelDCAMut, markLevelFailed, markLevelFailedSized,
    processLevelSize, activateLevel, applyCancel, applyCancelFailed, applyCancelDCA,
    cancelOrder, cancelDCAOrder, calculateAverageEntryPrice, truthyOpt,
    isRateLimitMsg_boom, isRateLimitMsg_hit, countActive, List.find?, List.any, natbeq_decide, strbeq_decide, lsbeq_fp, lsbeq_pp, lsbeq_ap, lsbeq_lp, lsbeq_aa, lsbeq_pa, lsbeq_la, lsbeq_fa, posW, cfgOne, csUnit, opsOne,
    opsFailInit, opsFill, opsZeroFill, pFailed, pDone, pZeroFill])

/-- C3 (counterexample): in the reachable state where the only level failed,
no pending level remains and `executedLevels.length < dcaNumOrders`, yet
`placeNextDCAOrder` changes nothing: the position stays `active` and no
completion time is recorded, contradicting the claim that exhausting pending
levels completes the position. -/
theorem C3_counterexample :
    lookupPos (run cfgOne opsFailInit).activePositions 1 = some pFailed ∧
    pFailed.levels.find? (fun l => l.status == LevelStatus.pending) = none ∧
    pFailed.executedLevels.length < cfgOne.dcaNumOrders ∧
    placeNextDCAOrder (run cfgOne opsFailInit) 1 csUnit SubmitOutcome.ok 5 =
      run cfgOne opsFailInit ∧
    pFailed.status = PosStatus.active ∧
    pFailed.completionTime = none := by
  refine ⟨?_, by rfl, by norm_num [pFailed, cfgOne], ?_, rfl, rfl⟩ <;>
  norm_num [run, step, initialEngine, initialStats, initializeDCAPosition,
    newPositionState, generateDCALevels, generateDCALevelsAux, calculateOrderPrice,
    calculateOrderSize, placeNextDCAOrder, placeDCAOrder, completeDCAPosition,
    savePersistedData, savePositionsOnly, processOrderQuantity, jsRound, lookupPos,
    lookupOrd, mapPos, setPos, setOrd, eraseOrd, updateFirst, handleOrderFill,
    applyFill, fillMut, activeMut, failedMut, sizedMut, failedSizedMut, cancelMut,
    cancelFailedMut, cancelDCAMut, markLevelFailed, markLevelFailedSized,
    processLevelSize, activateLevel, applyCancel, applyCancelFailed, applyCancelDCA,
    cancelOrder, cancelDCAOrder, calculateAverageEntryPrice, truthyOpt,
    isRateLimitMsg_boom, isRateLimitMsg_hit, countActive, List.find?, List.any, natbeq_decide, strbeq_decide, lsbeq_fp, lsbeq_pp, lsbeq_ap, lsbeq_lp, lsbeq_aa, lsbeq_pa, lsbeq_la, lsbeq_fa, posW, cfgOne, csUnit, opsOne,
    opsFailInit, opsFill, opsZeroFill, pFailed, pDone, pZeroFill]

/-- C3 (amended): the position is completed (recording the completion time)
exactly when `executedLevels.length` has reached `dcaNumOrders` at the next
placement attempt; when no pending level remains but fewer levels executed,
`placeNextDCAOrder` returns the state unchanged and the position stays as it
was. -/
theorem C3_completion (s : EngineState) (pid : Nat) (cs : Constraints)
    (out : SubmitOutcome) (now : Nat) (p : PositionState)
    (hp : lookupPos s.activePositions pid = some p) :
    (s.config.dcaNumOrders ≤ p.executedLevels.length →
      lookupPos (placeNextDCAOrder s pid cs out now).activePositions pid =
        some { p with status := PosStatus.completed, completionTime := some now }) ∧
    (p.executedLevels.length < s.config.dcaNumOrders →
      p.levels.find? (fun l => l.status == LevelStatus.pending) = none →
      placeNextDCAOrder s pid cs out now = s) := by
  constructor
  · intro hge
    unfold placeNextDCAOrder
    rw [hp]
    dsimp only
    rw [if_pos hge]
    unfold completeDCAPosition
    rw [hp]
    dsimp only
    show lookupPos (mapPos s.activePositions pid
      (fun p => { p with status := PosStatus.completed,
                         completionTime := some now })) pid = _
    rw [lookupPos_mapPos, hp]
    rfl
  · intro hlt hnone
    unfold placeNextDCAOrder
    rw [hp]
    dsimp only
    rw [if_neg (by omega)]
    split
    · rfl
    · rw [hnone]

theorem C3_witness :
    lookupPos (placeNextDCAOrder (run cfgOne opsFill) 1 csUnit SubmitOutcome.ok 7
        ).activePositions 1 =
      some { pDone with status := PosStatus.completed, completionTime := some 7 } ∧
    placeNextDCAOrder (run cfgOne opsFailInit) 1 csUnit SubmitOutcome.ok 5 =
      run cfgOne opsFailInit := by
  constructor
  · apply (C3_completion (run cfgOne opsFill) 1 csUnit SubmitOutcome.ok 7 pDone ?_).1 ?_
    · norm_num [run, step, initialEngine, initialStats, initializeDCAPosition,
        newPositionState, generateDCALevels, generateDCALevelsAux, calculateOrderPrice,
        calculateOrderSize, placeNextDCAOrder, placeDCAOrder, completeDCAPosition,
        savePersistedData, savePositionsOnly, processOrderQuantity, jsRound, lookupPos,
        lookupOrd, mapPos, setPos, setOrd, eraseOrd, updateFirst, handleOrderFill,
        applyFill, fillMut, activeMut, failedMut, sizedMut, failedSizedMut, cancelMut,
        cancelFailedMut, cancelDCAMut, markLevelFailed, markLevelFailedSized,
        processLevelSize, activateLevel, applyCancel, applyCancelFailed,
        applyCancelDCA, cancelOrder, cancelDCAOrder, calculateAverageEntryPrice,
        truthyOpt, isRateLimitMsg_boom, isRateLimitMsg_hit, countActive, List.find?, List.any, natbeq_decide, strbeq_decide, lsbeq_fp, lsbeq_pp, lsbeq_ap, lsbeq_lp, lsbeq_aa, lsbeq_pa, lsbeq_la, lsbeq_fa, posW, cfgOne,
        csUnit, opsOne, opsFailInit, opsFill, opsZeroFill, pFailed, pDone, pZeroFill]
    · norm_num [run, step, initialEngine, initialStats, initializeDCAPosition,
        newPositionState, generateDCALevels, generateDCALevelsAux, calculateOrderPrice,
        calculateOrderSize, placeNextDCAOrder, placeDCAOrder, completeDCAPosition,
        savePersistedData, savePositionsOnly, processOrderQuantity, jsRound, lookupPos,
        lookupOrd, mapPos, setPos, setOrd, eraseOrd, updateFirst, handleOrderFill,
        applyFill, fillMut, activeMut, failedMut, sizedMut, failedSizedMut, cancelMut,
        cancelFailedMut, cancelDCAMut, markLevelFailed, markLevelFailedSized,
        processLevelSize, activateLevel, applyCancel, applyCancelFailed,
        applyCancelDCA, cancelOrder, cancelDCAOrder, calculateAverageEntryPrice,
        truthyOpt, isRateLimitMsg_boom, isRateLimitMsg_hit, countActive, List.find?, List.any, natbeq_decide, strbeq_decide, lsbeq_fp, lsbeq_pp, lsbeq_ap, lsbeq_lp, lsbeq_aa, lsbeq_pa, lsbeq_la, lsbeq_fa, posW, cfgOne,
        csUnit, opsOne, opsFailInit, opsFill, opsZeroFill, pFailed, pDone, pZeroFill]
  · apply (C3_completion (run cfgOne opsFailInit) 1 csUnit SubmitOutcome.ok 5 pFailed
      ?_).2 ?_ ?_
    · norm_num [run, step, initialEngine, initialStats, initializeDCAPosition,
        newPositionState, generateDCALevels, generateDCALevelsAux, calculateOrderPrice,
        calculateOrderSize, placeNextDCAOrder, placeDCAOrder, completeDCAPosition,
        savePersistedData, savePositionsOnly, processOrderQuantity, jsRound, lookupPos,
        lookupOrd, mapPos, setPos, setOrd, eraseOrd, updateFirst, handleOrderFill,
        applyFill, fillMut, activeMut, failedMut, sizedMut, failedSizedMut, cancelMut,
        cancelFailedMut, cancelDCAMut, markLevelFailed, markLevelFailedSized,
        processLevelSize, activateLevel, applyCancel, applyCancelFailed,
        applyCancelDCA, cancelOrder, cancelDCAOrder, calculateAverageEntryPrice,
        truthyOpt, isRateLimitMsg_boom, isRateLimitMsg_hit, countActive, List.find?, List.any, natbeq_decide, strbeq_decide, lsbeq_fp, lsbeq_pp, lsbeq_ap, lsbeq_lp, lsbeq_aa, lsbeq_pa, lsbeq_la, lsbeq_fa, posW, cfgOne,
        csUnit, opsOne, opsFailInit, opsFill, opsZeroFill, pFailed, pDone, pZeroFill]
    · norm_num [run, step, initialEngine, initialStats, initializeDCAPosition,
        newPositionState, generateDCALevels, generateDCALevelsAux, calculateOrderPrice,
        calculateOrderSize, placeNextDCAOrder, placeDCAOrder, completeDCAPosition,
        savePersistedData, savePositionsOnly, processOrderQuantity, jsRound, lookupPos,
        lookupOrd, mapPos, setPos, setOrd, eraseOrd, updateFirst, handleOrderFill,
        applyFill, fillMut, activeMut, failedMut, sizedMut, failedSizedMut, cancelMut,
        cancelFailedMut, cancelDCAMut, markLevelFailed, markLevelFailedSized,
        processLevelSize, activateLevel, applyCancel, applyCancelFailed,
        applyCancelDCA, cancelOrder, cancelDCAOrder, calculateAverageEntryPrice,
        truthyOpt, isRateLimitMsg_boom, isRateLimitMsg_hit, countActive, List.find?, List.any, natbeq_decide, strbeq_decide, lsbeq_fp, lsbeq_pp, lsbeq_ap, lsbeq_lp, lsbeq_aa, lsbeq_pa, lsbeq_la, lsbeq_fa, posW, cfgOne,
        csUnit, opsOne, opsFailInit, opsFill, opsZeroFill, pFailed, pDone, pZeroFill]
    · rfl


/-- C4 (counterexample): in the reachable state produced by a fill reported
with `fillPrice = 0`, the stored `averageEntryPrice` is the bare base price,
while the size-weighted mean over the base entry and the executed level is
200/3 — the truthiness filter silently drops the zero-priced fill, so the
claimed formula does not hold for every fill sequence. -/
theorem C4_counterexample :
    lookupPos (run cfgOne opsZeroFill).activePositions 1 = some pZeroFill ∧
    pZeroFill.averageEntryPrice = 100 ∧
    specWeightedAverage pZeroFill = 200/3 ∧
    pZeroFill.averageEntryPrice ≠ specWeightedAverage pZeroFill := by
  refine ⟨?_, rfl, ?_, ?_⟩ <;>
  norm_num [run, step, initialEngine, initialStats, initializeDCAPosition,
    newPositionState, generateDCALevels, generateDCALevelsAux, calculateOrderPrice,
    calculateOrderSize, placeNextDCAOrder, placeDCAOrder, completeDCAPosition,
    savePersistedData, savePositionsOnly, processOrderQuantity, jsRound, lookupPos,
    lookupOrd, mapPos, setPos, setOrd, eraseOrd, updateFirst, handleOrderFill,
    applyFill, fillMut, activeMut, failedMut, sizedMut, failedSizedMut, cancelMut,
    cancelFailedMut, cancelDCAMut, markLevelFailed, markLevelFailedSized,
    processLevelSize, activateLevel, applyCancel, applyCancelFailed, applyCancelDCA,
    cancelOrder, cancelDCAOrder, calculateAverageEntryPrice, truthyOpt,
    isRateLimitMsg_boom, isRateLimitMsg_hit, countActive, List.find?, List.any,
    natbeq_decide, strbeq_decide, lsbeq_fp, lsbeq_pp, lsbeq_ap, lsbeq_lp, lsbeq_aa,
    lsbeq_pa, lsbeq_la, lsbeq_fa, posW, cfgOne, csUnit, opsOne,
    opsFailInit, opsFill, opsZeroFill, pFailed, pDone, pZeroFill,
    specWeightedAverage, sumFillValues, sumFillQtys]

/-- C4 (amended): in every reachable engine state, every tracked position
whose executed levels all carry truthy (non-`null`, non-zero) `fillPrice` and
`filledQty` and whose `baseSize` is non-zero has `averageEntryPrice` equal to
the size-weighted mean of `(basePrice, baseSize)` and all executed levels'
`(fillPrice, filledQty)`; a fill reported with price 0 is silently excluded
from the average. -/
theorem C4_weighted_average (cfg : Config) (ops : List Op)
    (e : Nat × PositionState) (he : e ∈ (run cfg ops).activePositions)
    (htr : ∀ l ∈ e.2.executedLevels,
      truthyOpt l.fillPrice = true ∧ truthyOpt l.filledQty = true)
    (hbs : e.2.baseSize ≠ 0) :
    e.2.averageEntryPrice = specWeightedAverage e.2 :=
  ((inv_run cfg ops).avg e he).trans (calcAvg_spec htr hbs)

theorem C4_witness : pDone.averageEntryPrice = specWeightedAverage pDone :=
  C4_weighted_average cfgOne opsFill (1, pDone)
    (by norm_num [run, step, initialEngine, initialStats, initializeDCAPosition,
    newPositionState, generateDCALevels, generateDCALevelsAux, calculateOrderPrice,
    calculateOrderSize, placeNextDCAOrder, placeDCAOrder, completeDCAPosition,
    savePersistedData, savePositionsOnly, processOrderQuantity, jsRound, lookupPos,
    lookupOrd, mapPos, setPos, setOrd, eraseOrd, updateFirst, handleOrderFill,
    applyFill, fillMut, activeMut, failedMut, sizedMut, failedSizedMut, cancelMut,
    cancelFailedMut, cancelDCAMut, markLevelFailed, markLevelFailedSized,
    processLevelSize, activateLevel, applyCancel, applyCancelFailed, applyCancelDCA,
    cancelOrder, cancelDCAOrder, calculateAverageEntryPrice, truthyOpt,
    isRateLimitMsg_boom, isRateLimitMsg_hit, countActive, List.find?, List.any,
    natbeq_decide, strbeq_decide, lsbeq_fp, lsbeq_pp, lsbeq_ap, lsbeq_lp, lsbeq_aa,
    lsbeq_pa, lsbeq_la, lsbeq_fa, posW, cfgOne, csUnit, opsOne,
    opsFailInit, opsFill, opsZeroFill, pFailed, pDone, pZeroFill])
    (by intro l hl; fin_cases hl; exact ⟨by norm_num [truthyOpt], by norm_num [truthyOpt]⟩)
    (by norm_num [pDone])

theorem trueRanges_ne_nil {ks : List Kline} {period : Nat} (hp : 1 ≤ period)
    (hlen : ks.length = period + 1) : trueRanges ks ≠ [] := by
  intro h
  have := trueRanges_length ks
  rw [h, hlen] at this
  simp at this
  omega

/-- C5: on `period + 1` chronologically ordered candles with `1 ≤ period`,
`computeATR` returns exactly the Wilder-smoothed value ATR₁ = TR₁,
ATRᵢ = (ATRᵢ₋₁·(period−1) + TRᵢ)/period defined by the specification, and the
surrounding calculation succeeds precisely when that value is strictly
positive, failing with the invalid-result error otherwise.  (Finiteness is
automatic in the exact-rational embedding.) -/
theorem C5_wilder_atr (ks : List Kline) (period : Nat)
    (hlen : ks.length = period + 1) (hp : 1 ≤ period) :
    computeATR ks period = .ok (specWilderATR ks period) ∧
    (0 < specWilderATR ks period →
      calculateATRBody ks period = .ok (specWilderATR ks period)) ∧
    (¬ 0 < specWilderATR ks period →
      calculateATRBody ks period = .error ATRError.invalidResult) := by
  have htr_len : (trueRanges ks).length = period := by
    rw [trueRanges_length, hlen]; simp
  have hne : trueRanges ks ≠ [] := trueRanges_ne_nil hp hlen
  have hmain : computeATR ks period = .ok (specWilderATR ks period) := by
    unfold computeATR
    rw [if_neg (by omega), if_neg (by rw [htr_len]; omega)]
    rw [foldl_wilder (period : ℚ) _ rfl (trueRanges ks) hne]
    unfold specWilderATR
    rw [htr_len, hlen]
    simp only [Nat.add_sub_cancel]
    rw [specATRseq_congr (period : ℚ) _ (specTrueRange ks) period
      (fun i h1 h2 => by
        show (trueRanges ks).getD (i - 1) 0 = specTrueRange ks i
        rw [trueRanges_getD ks (i - 1) (by omega)]
        congr 1
        omega)
      hp]
  refine ⟨hmain, ?_, ?_⟩
  · intro hpos
    unfold calculateATRBody
    rw [if_neg (by omega), hmain]
    dsimp only
    rw [if_pos]
    simp only [Bool.and_eq_true, Bool.not_eq_true', decide_eq_true_eq]
    exact ⟨beq_eq_false_iff_ne.mpr (ne_of_gt hpos), hpos⟩
  · intro hnpos
    unfold calculateATRBody
    rw [if_neg (by omega), hmain]
    dsimp only
    rw [if_neg]
    simp only [Bool.and_eq_true, decide_eq_true_eq]
    rintro ⟨-, h⟩
    exact hnpos h

theorem C5_witness :
    computeATR ksW 2 = .ok (specWilderATR ksW 2) ∧
    calculateATRBody ksW 2 = .ok (specWilderATR ksW 2) ∧
    specWilderATR ksW 2 = 9/2 := by
  have hval : specWilderATR ksW 2 = 9/2 := by
    norm_num [specWilderATR, specATRseq, specTrueRange, ksW, List.getD, abs]
  exact ⟨(C5_wilder_atr ksW 2 rfl (by norm_num)).1,
    (C5_wilder_atr ksW 2 rfl (by norm_num)).2.1 (by rw [hval]; norm_num), hval⟩

/-- C6 (counterexample): on the claim scenario (basePrice 100, long,
volatility 2, atrDeviation 0.5, numOrders 3, stepScale 1.2, volumeScale 1.5,
baseSize 10) the generated order sizes are 10, 15 and 22.5 — not the claimed
15, 22.5 and 33.75: the volume multiplier starts at 1.0 and only the later
levels are scaled. -/
theorem C6_counterexample :
    (generateDCALevels cfgC6 Side.long 100 10 2).map (fun l => l.orderSize) =
      [10, 15, 45/2] ∧
    (generateDCALevels cfgC6 Side.long 100 10 2).map (fun l => l.orderSize) ≠
      [15, 45/2, 135/4] := by
  constructor <;>
  norm_num [generateDCALevels, generateDCALevelsAux, calculateOrderPrice,
    calculateOrderSize, cfgC6]

/-- C6 (amended): on the claim scenario the generator produces exactly three
levels whose price deviations are 1.0, 1.2 and 1.44 and whose prices are 99,
98.8 and 98.56 as claimed, but whose sizes are 10, 15 and 22.5 (the first
level uses volume multiplier 1.0). -/
theorem C6_levels :
    (generateDCALevels cfgC6 Side.long 100 10 2).map
        (fun l => (l.level, l.priceDeviation, l.orderPrice, l.orderSize)) =
      [(1, 1, 99, 10), (2, 6/5, 494/5, 15), (3, 36/25, 2464/25, 45/2)] := by
  norm_num [generateDCALevels, generateDCALevelsAux, calculateOrderPrice,
    calculateOrderSize, cfgC6]

/-- C7: rate-limit handling.  Detection fires exactly when the error message
contains "rate limit"; the cool-down drawn with randomness `r ∈ [0,1)` lies
in [5000 ms, 10000 ms); a rate-limited submission makes the engine re-enter
the same `placeDCAOrder` call (same position and level, next outcome) exactly
once per rate-limited failure, after only re-processing the level quantity;
and in every reachable state no level ever owns two order records: each
position holds at most one active order id, the order ids assigned across a
position's levels are pairwise distinct, and the engine order index has
pairwise-distinct ids.  (The 3-attempt exponential backoff lives inside each
submission attempt, modelled by the submission outcome.) -/
theorem C7_rate_limit :
    (∀ (msg : String) (r : ℚ),
        (handleRateLimit msg r).1 = true ↔
          "rate limit".toList <:+: msg.toList) ∧
    (∀ (msg : String) (r : ℚ), isRateLimitMsg msg = true → 0 ≤ r → r < 1 →
        5000 ≤ (handleRateLimit msg r).2 ∧ (handleRateLimit msg r).2 < 10000) ∧
    (∀ (s : EngineState) (pid lv : Nat) (cs : Constraints) (now : Nat)
        (msg : String) (next : SubmitOutcome) (p : PositionState),
        lookupPos s.activePositions pid = some p → cs.tickSize ≠ 0 →
        isRateLimitMsg msg = true →
        placeDCAOrder s pid lv cs now (SubmitOutcome.err msg next) =
          placeDCAOrder { s with
              activePositions := mapPos s.activePositions pid
                (processLevelSize lv cs) } pid lv cs now next) ∧
    (∀ (cfg : Config) (ops : List Op), ∀ e ∈ (run cfg ops).activePositions,
        e.2.activeOrders.length ≤ 1 ∧
        (e.2.levels.filterMap (fun l => l.orderId)).Nodup) ∧
    (∀ (cfg : Config) (ops : List Op),
        ((run cfg ops).activeOrders.map Prod.fst).Nodup) := by
  refine ⟨?_, ?_, ?_, ?_, ?_⟩
  · intro msg r
    unfold handleRateLimit
    by_cases h : isRateLimitMsg msg
    · rw [if_pos h]
      simp only [true_iff]
      exact of_decide_eq_true h
    · rw [if_neg h]
      constructor
      · intro hf
        exact absurd hf (by simp)
      · intro hinf
        exact absurd (decide_eq_true hinf) h
  · intro msg r hr h0 h1
    unfold handleRateLimit
    rw [if_pos hr]
    dsimp only
    constructor <;> nlinarith
  · intro s pid lv cs now msg next p hp hts hrl
    conv_lhs => rw [placeDCAOrder]
    rw [hp]
    dsimp only
    rw [if_neg hts, if_pos hrl]
  · intro cfg ops e he
    exact ⟨((inv_run cfg ops).pos e he).aoLen, ((inv_run cfg ops).pos e he).oidNodup⟩
  · intro cfg ops
    exact (inv_run cfg ops).okeys

theorem C7_witness :
    (handleRateLimit "hit rate limit" (1/2)).1 = true ∧
    5000 ≤ (handleRateLimit "hit rate limit" (1/2)).2 ∧
    (handleRateLimit "hit rate limit" (1/2)).2 < 10000 ∧
    placeDCAOrder (run cfgOne opsFailInit) 1 1 csUnit 9
        (SubmitOutcome.err "hit rate limit" SubmitOutcome.ok) =
      placeDCAOrder { (run cfgOne opsFailInit) with
          activePositions := mapPos (run cfgOne opsFailInit).activePositions 1
            (processLevelSize 1 csUnit) } 1 1 csUnit 9 SubmitOutcome.ok ∧
    posW.activeOrders.length ≤ 1 :=
  ⟨(C7_rate_limit.1 "hit rate limit" (1/2)).mpr (by decide),
   (C7_rate_limit.2.1 "hit rate limit" (1/2) isRateLimitMsg_hit (by norm_num) (by norm_num)).1,
   (C7_rate_limit.2.1 "hit rate limit" (1/2) isRateLimitMsg_hit (by norm_num) (by norm_num)).2,
   C7_rate_limit.2.2.1 (run cfgOne opsFailInit) 1 1 csUnit 9 "hit rate limit"
     SubmitOutcome.ok pFailed
     (by norm_num [run, step, initialEngine, initialStats, initializeDCAPosition,
    newPositionState, generateDCALevels, generateDCALevelsAux, calculateOrderPrice,
    calculateOrderSize, placeNextDCAOrder, placeDCAOrder, completeDCAPosition,
    savePersistedData, savePositionsOnly, processOrderQuantity, jsRound, lookupPos,
    lookupOrd, mapPos, setPos, setOrd, eraseOrd, updateFirst, handleOrderFill,
    applyFill, fillMut, activeMut, failedMut, sizedMut, failedSizedMut, cancelMut,
    cancelFailedMut, cancelDCAMut, markLevelFailed, markLevelFailedSized,
    processLevelSize, activateLevel, applyCancel, applyCancelFailed, applyCancelDCA,
    cancelOrder, cancelDCAOrder, calculateAverageEntryPrice, truthyOpt,
    isRateLimitMsg_boom, isRateLimitMsg_hit, countActive, List.find?, List.any,
    natbeq_decide, strbeq_decide, lsbeq_fp, lsbeq_pp, lsbeq_ap, lsbeq_lp, lsbeq_aa,
    lsbeq_pa, lsbeq_la, lsbeq_fa, posW, cfgOne, csUnit, opsOne,
    opsFailInit, opsFill, opsZeroFill, pFailed, pDone, pZeroFill])
     (by norm_num [csUnit]) isRateLimitMsg_hit,
   (C7_rate_limit.2.2.2.1 cfgOne opsOne (1, posW)
     (by norm_num [run, step, initialEngine, initialStats, initializeDCAPosition,
    newPositionState, generateDCALevels, generateDCALevelsAux, calculateOrderPrice,
    calculateOrderSize, placeNextDCAOrder, placeDCAOrder, completeDCAPosition,
    savePersistedData, savePositionsOnly, processOrderQuantity, jsRound, lookupPos,
    lookupOrd, mapPos, setPos, setOrd, eraseOrd, updateFirst, handleOrderFill,
    applyFill, fillMut, activeMut, failedMut, sizedMut, failedSizedMut, cancelMut,
    cancelFailedMut, cancelDCAMut, markLevelFailed, markLevelFailedSized,
    processLevelSize, activateLevel, applyCancel, applyCancelFailed, applyCancelDCA,
    cancelOrder, cancelDCAOrder, calculateAverageEntryPrice, truthyOpt,
    isRateLimitMsg_boom, isRateLimitMsg_hit, countActive, List.find?, List.any,
    natbeq_decide, strbeq_decide, lsbeq_fp, lsbeq_pp, lsbeq_ap, lsbeq_lp, lsbeq_aa,
    lsbeq_pa, lsbeq_la, lsbeq_fa, posW, cfgOne, csUnit, opsOne,
    opsFailInit, opsFill, opsZeroFill, pFailed, pDone, pZeroFill])).1⟩

/-- C8 (counterexample): the unrecognized timeframe "2h" passes
`validateConfig` with no errors — the timeframe is never validated at
construction (the claimed enum check lives only in the never-called ATR
service validator), and the kline fetch silently maps "2h" to the 1-hour
interval "60". -/
theorem C8_counterexample :
    validateConfig cfgBadTimeframe = [] ∧
    ¬ specConfigOk cfgBadTimeframe ∧
    mapTimeframe cfgBadTimeframe.atrTimeframe = "60" := by
  refine ⟨by norm_num [validateConfig, cfgBadTimeframe], ?_, by decide⟩
  rintro ⟨htf, -⟩
  exact absurd htf (by decide)

/-- C8 (amended): construction-time validation accepts a configuration
exactly when the five numeric parameters are in range — atrLength in [1,100],
numOrders in [1,20], volumeScale in [1,5], stepScale in [1,3] and
maxTotalPercent in [1,100]; the timeframe is not checked at all. -/
theorem C8_validate_iff (cfg : Config) :
    validateConfig cfg = [] ↔
      (1 ≤ cfg.atrLength ∧ cfg.atrLength ≤ 100 ∧
       1 ≤ cfg.dcaNumOrders ∧ cfg.dcaNumOrders ≤ 20 ∧
       1 ≤ cfg.volumeScale ∧ cfg.volumeScale ≤ 5 ∧
       1 ≤ cfg.stepScale ∧ cfg.stepScale ≤ 3 ∧
       1 ≤ cfg.maxTotalPercent ∧ cfg.maxTotalPercent ≤ 100) := by
  unfold validateConfig
  simp only [List.append_eq_nil, ite_eq_right_iff, List.cons_ne_nil, imp_false,
    not_or, not_lt, gt_iff_lt]
  constructor
  · rintro ⟨⟨⟨⟨⟨h1, h2⟩, h3, h4⟩, h5, h6⟩, h7, h8⟩, h9, h10⟩
    exact ⟨h1, h2, h3, h4, h5, h6, h7, h8, h9, h10⟩
  · rintro ⟨h1, h2, h3, h4, h5, h6, h7, h8, h9, h10⟩
    exact ⟨⟨⟨⟨⟨h1, h2⟩, h3, h4⟩, h5, h6⟩, h7, h8⟩, h9, h10⟩

theorem C8_witness :
    validateConfig cfgOne = [] :=
  (C8_validate_iff cfgOne).mpr (by norm_num [cfgOne])

/-- C10 (counterexample): with the valid (positive) step 10⁻⁹, which is finer
than the 8-decimal rounding grid, the processed quantity of the minimum order
size rounds down to 0 and is strictly below `minOrderSize` — the claimed lower
bound fails for steps off the 8-decimal grid. -/
theorem C10_counterexample :
    0 < csTiny.qtyStep ∧
    processOrderQuantity csTiny.minOrderSize csTiny < csTiny.minOrderSize := by
  constructor <;> norm_num [processOrderQuantity, jsRound, csTiny]

/-- C10 (amended): whenever `qtyStep` is a positive multiple of 10⁻⁸ (so the
8-decimal rounding is exact), the processed quantity is at least
`minOrderSize` and is an integer multiple of `qtyStep`, obtained by rounding
the size up to the step grid. -/
theorem C10_quantity (os : ℚ) (cs : Constraints) (k : ℤ)
    (hk : cs.qtyStep = (k : ℚ) / 100000000) (hkpos : 0 < k) :
    cs.minOrderSize ≤ processOrderQuantity os cs ∧
    ∃ m : ℤ, processOrderQuantity os cs = (m : ℚ) * cs.qtyStep := by
  have hstep : (0:ℚ) < cs.qtyStep := by
    rw [hk]
    exact div_pos (by exact_mod_cast hkpos) (by norm_num)
  unfold processOrderQuantity jsRound
  dsimp only
  rw [if_pos hstep]
  set p1 := if os < cs.minOrderSize then cs.minOrderSize else os with hp1
  have hint : (⌈p1 / cs.qtyStep⌉ : ℚ) * cs.qtyStep * 100000000 =
      ((⌈p1 / cs.qtyStep⌉ * k : ℤ) : ℚ) := by
    rw [hk]
    push_cast
    ring
  rw [hint]
  have hfl : ⌊((⌈p1 / cs.qtyStep⌉ * k : ℤ) : ℚ) + 1/2⌋ = ⌈p1 / cs.qtyStep⌉ * k := by
    rw [Int.floor_int_add]
    norm_num
  rw [hfl]
  have hres : ((⌈p1 / cs.qtyStep⌉ * k : ℤ) : ℚ) / 100000000 =
      (⌈p1 / cs.qtyStep⌉ : ℚ) * cs.qtyStep := by
    rw [hk]
    push_cast
    ring
  rw [hres]
  constructor
  · have h1 : cs.minOrderSize ≤ p1 := by
      rw [hp1]
      split
      · exact le_refl _
      · next h => exact le_of_not_lt h
    have h2 : p1 ≤ (⌈p1 / cs.qtyStep⌉ : ℚ) * cs.qtyStep :=
      (div_le_iff₀ hstep).mp (Int.le_ceil _)
    exact le_trans h1 h2
  · exact ⟨⌈p1 / cs.qtyStep⌉, rfl⟩

theorem C10_witness :
    csDime.qtyStep = ((10000000 : ℤ) : ℚ) / 100000000 ∧
    csDime.minOrderSize ≤ processOrderQuantity (1/4) csDime ∧
    ∃ m : ℤ, processOrderQuantity (1/4) csDime = (m : ℚ) * csDime.qtyStep :=
  ⟨by norm_num [csDime],
   (C10_quantity (1/4) csDime 10000000 (by norm_num [csDime]) (by norm_num)).1,
   (C10_quantity (1/4) csDime 10000000 (by norm_num [csDime]) (by norm_num)).2⟩
